import Mathlib

/-!
Verification of the TimePilot scheduling engine (src/src/components/TaskList.tsx,
utility section exported as the scheduling module).

Modelling conventions (shallow embedding):
* Calendar dates are modelled as integers (day numbers).  ISO "YYYY-MM-DD"
  strings are order-isomorphic to day numbers, so the source's string
  comparisons (planDate < today, d <= deadlineDateStr, date equality) become
  integer comparisons.  Weekday of a day number d is d % 7 (epoch chosen so
  that day 0 is a Sunday, matching JS getDay up to choice of epoch).
* Times of day "HH:MM" are modelled as minutes after midnight.  A session's
  startTime/endTime may be the empty string in the source; we model the empty
  string as none.  JS truthiness of a time string (empty string is falsy)
  becomes Option.isSome.  Where the source parses a time string with
  split(":").map(Number), the empty string yields 0 minutes (Number("") = 0),
  modelled by Option.getD 0.
* JS numbers are modelled as rationals; Math.round(x*60)/60 becomes round60,
  Math.ceil becomes Int.ceil.  All quantities the engine produces stay in
  (1/60)*Int, where this arithmetic is exact.
* The engine reads the wall clock (new Date(), getLocalDateString()); we pass
  the clock explicitly: today (a day number) and nowMinutes (minutes after
  local midnight, as a rational).  A single time zone is assumed, so the
  source's toISOString date of "now + k days" is today + k.
-/

namespace TimePilot

/-- Session status string union from src/types (StudySession.status). -/
inductive SStatus
  | scheduled
  | inprogress
  | completed
  | missed
  | overdue
  | rescheduled
  | skipped
  deriving DecidableEq, Repr

/-- Task status string union from src/types (Task.status). -/
inductive TStatus
  | pending
  | inprogress
  | completed
  deriving DecidableEq, Repr

/-- studyPlanMode union from src/types (UserSettings.studyPlanMode). -/
inductive Mode
  | even
  | eisenhower
  deriving DecidableEq, Repr

/-- StudySession from src/types.  Fields not read by the scheduling engine
(scheduledTime, isFlexible, actualHours, completedAt, rescheduledAt) are
omitted.  originalTime is a time of day, originalDate a day number. -/
structure StudySession where
  taskId : String
  startTime : Option Nat
  endTime : Option Nat
  allocatedHours : ℚ
  sessionNumber : Nat
  done : Bool := false
  status : Option SStatus := none
  originalTime : Option Nat := none
  originalDate : Option Int := none
  isManualOverride : Bool := false
  deriving DecidableEq, Repr

/-- Task from src/types (fields the engine reads). -/
structure Task where
  id : String
  title : String
  deadline : Int
  importance : Bool
  estimatedHours : ℚ
  status : TStatus
  deriving DecidableEq, Repr

/-- StudyPlan from src/types. -/
structure StudyPlan where
  id : String
  date : Int
  plannedTasks : List StudySession
  totalStudyHours : ℚ
  availableHours : ℚ
  deriving DecidableEq, Repr

attribute [ext] StudyPlan

/-- One entry of FixedCommitment.modifiedOccurrences: a partial override of
startTime/endTime for a single date (title/type are not read by the engine). -/
structure ModifiedOccurrence where
  startTime : Option Nat := none
  endTime : Option Nat := none
  deriving DecidableEq, Repr

/-- FixedCommitment from src/types (fields the engine reads). -/
structure FixedCommitment where
  id : String
  startTime : Nat
  endTime : Nat
  recurring : Bool
  daysOfWeek : List Int
  specificDates : List Int
  deletedOccurrences : List Int
  modifiedOccurrences : List (Int × ModifiedOccurrence)
  deriving DecidableEq, Repr

/-- UserSettings from src/types (fields the engine reads). -/
structure UserSettings where
  dailyAvailableHours : ℚ
  workDays : List Int
  bufferDays : Int
  minSessionLength : Nat
  bufferTimeBetweenSessions : Nat
  studyWindowStartHour : Nat
  studyWindowEndHour : Nat
  studyPlanMode : Mode
  deriving DecidableEq, Repr

/-- JS Math.round(x * 60) / 60 (Math.round is floor(x + 1/2)). -/
def round60 (q : ℚ) : ℚ := (Int.floor (q * 60 + 1/2) : ℚ) / 60

/-- settings.minSessionLength || 15 (JS: 0 is falsy). -/
def effMinSessionLength (s : UserSettings) : Nat :=
  if s.minSessionLength = 0 then 15 else s.minSessionLength

/-- settings.studyWindowStartHour || 6. -/
def effWindowStart (s : UserSettings) : Nat :=
  if s.studyWindowStartHour = 0 then 6 else s.studyWindowStartHour

/-- settings.studyWindowEndHour || 23. -/
def effWindowEnd (s : UserSettings) : Nat :=
  if s.studyWindowEndHour = 0 then 23 else s.studyWindowEndHour

/-- JS getDay on a day number: weekday 0..6 (day 0 is a Sunday). -/
def dayOfWeek (d : Int) : Int := d % 7

/-- calculateTotalStudyHours (TaskList.tsx:459): sum of allocated hours over
sessions that are done or skipped. -/
def calculateTotalStudyHours (plannedTasks : List StudySession) : ℚ :=
  (plannedTasks.filter fun s => s.done || s.status == some SStatus.skipped).foldl
    (fun sum s => sum + s.allocatedHours) 0

/-- Result type of checkSessionStatus (its TS return union has no skipped). -/
inductive CStatus
  | scheduled
  | inprogress
  | completed
  | missed
  | overdue
  | rescheduled
  deriving DecidableEq, Repr

/-- checkSessionStatus (TaskList.tsx:492).  today/nowMinutes stand for the
wall clock the source reads.  In the planDate = today branch the source builds
Date objects from the session's time strings; when a time string is empty the
Date is invalid and every comparison with it is false in JS, so control falls
through to the final else of that branch (overdue) — modelled by the catch-all
match arm. -/
def checkSessionStatus (today : Int) (nowMinutes : ℚ) (session : StudySession)
    (planDate : Int) : CStatus :=
  if session.done || session.status == some SStatus.completed then
    CStatus.completed
  else if session.status == some SStatus.skipped then
    CStatus.completed
  else if session.originalTime.isSome && session.originalDate.isSome then
    CStatus.rescheduled
  else if planDate < today then
    if session.originalTime.isSome && session.originalDate.isSome then
      CStatus.scheduled
    else
      CStatus.missed
  else if planDate = today then
    match session.startTime, session.endTime with
    | some s, some e =>
        if nowMinutes < (s : ℚ) then CStatus.scheduled
        else if nowMinutes ≥ (s : ℚ) ∧ nowMinutes ≤ (e : ℚ) then CStatus.inprogress
        else CStatus.overdue
    | _, _ => CStatus.overdue
  else
    CStatus.scheduled

/-- isMissedOrRedistributedSession (TaskList.tsx:542). -/
def isMissedOrRedistributedSession (today : Int) (nowMinutes : ℚ)
    (session : StudySession) (planDate : Int) : Bool :=
  checkSessionStatus today nowMinutes session planDate == CStatus.missed ||
    session.isManualOverride ||
    (session.originalTime.isSome && session.originalDate.isSome)

/-- A busy interval in minutes (the source's {start, end}; end is a Lean
keyword, so the field is named stop). -/
structure BusyInterval where
  start : Int
  stop : Int
  deriving DecidableEq, Repr

/-- Busy interval contributed by an existing session
(TaskList.tsx:561-565); an empty time string parses to 0 minutes. -/
def sessionInterval (s : StudySession) : BusyInterval :=
  { start := (s.startTime.getD 0 : Int), stop := (s.endTime.getD 0 : Int) }

/-- Busy interval contributed by a commitment for the target date
(TaskList.tsx:573-592): if a modifiedOccurrences entry exists for the date,
a modified startTime is paired with the BASE endTime; otherwise a modified
endTime is paired with the base startTime; otherwise the base interval. -/
def commitmentInterval (c : FixedCommitment) (targetDate : Option Int) :
    BusyInterval :=
  match targetDate.bind fun d => (c.modifiedOccurrences.find? fun p => p.1 == d).map Prod.snd with
  | some m =>
      match m.startTime with
      | some ms => { start := (ms : Int), stop := (c.endTime : Int) }
      | none =>
          match m.endTime with
          | some me => { start := (c.startTime : Int), stop := (me : Int) }
          | none => { start := (c.startTime : Int), stop := (c.endTime : Int) }
  | none => { start := (c.startTime : Int), stop := (c.endTime : Int) }

/-- Commitment filter in findNextAvailableTimeSlot (TaskList.tsx:568-571):
without a target date all commitments count; otherwise deleted occurrences of
the target date are excluded. -/
def activeCommitments (commitments : List FixedCommitment)
    (targetDate : Option Int) : List FixedCommitment :=
  commitments.filter fun c =>
    match targetDate with
    | none => true
    | some d => !(c.deletedOccurrences.contains d)

/-- The full busy-interval list findNextAvailableTimeSlot builds
(TaskList.tsx:559-592), before sorting. -/
def buildBusyIntervals (existingSessions : List StudySession)
    (commitments : List FixedCommitment) (targetDate : Option Int) :
    List BusyInterval :=
  existingSessions.map sessionInterval ++
    (activeCommitments commitments targetDate).map
      (fun c => commitmentInterval c targetDate)

/-- The slot-searching loop of findNextAvailableTimeSlot
(TaskList.tsx:597-620) over the sorted busy intervals. -/
def findSlotLoop (requiredMinutes : Int) (buffer : Int) (endOfDay : Int) :
    Int → List BusyInterval → Option (Int × Int)
  | current, [] =>
      if endOfDay - current ≥ requiredMinutes then
        some (current, current + requiredMinutes)
      else
        none
  | current, i :: rest =>
      if i.start - current ≥ requiredMinutes then
        some (current, current + requiredMinutes)
      else
        findSlotLoop requiredMinutes buffer endOfDay
          (max current (i.stop + buffer)) rest

/-- Comparison used to sort busy intervals (JS comparator a.start - b.start). -/
def startLE (a b : BusyInterval) : Prop := a.start ≤ b.start

instance : DecidableRel startLE := fun a b =>
  inferInstanceAs (Decidable (a.start ≤ b.start))

instance : IsTotal BusyInterval startLE :=
  ⟨fun a b => le_total a.start b.start⟩

instance : IsTrans BusyInterval startLE :=
  ⟨fun _ _ _ h h2 => le_trans h h2⟩

/-- findNextAvailableTimeSlot (TaskList.tsx:550-622).  The returned pair is
the slot in minutes (the source formats it back to "HH:MM", a bijection on
minute values). -/
def findNextAvailableTimeSlot (requiredHours : ℚ)
    (existingSessions : List StudySession) (commitments : List FixedCommitment)
    (studyWindowStartHour studyWindowEndHour : Nat) (buffer : Nat)
    (targetDate : Option Int) : Option (Int × Int) :=
  let busy := buildBusyIntervals existingSessions commitments targetDate
  let sorted := busy.insertionSort startLE
  let requiredMinutes : Int := Int.ceil (requiredHours * 60)
  findSlotLoop requiredMinutes (buffer : Int) ((studyWindowEndHour : Int) * 60)
    ((studyWindowStartHour : Int) * 60) sorted

/-- localeCompare key of a time value: the empty string sorts before every
"HH:MM" string, and zero-padded "HH:MM" strings compare lexicographically,
which is comparison by minute value. -/
def timeKey : Option Nat → Int
  | none => -1
  | some m => (m : Int)

/-- Session comparison by start time, as used by the combine passes
(sessions.sort((a, b) => a.startTime.localeCompare(b.startTime))). -/
def sessLE (a b : StudySession) : Prop := timeKey a.startTime ≤ timeKey b.startTime

instance : DecidableRel sessLE := fun a b =>
  inferInstanceAs (Decidable (timeKey a.startTime ≤ timeKey b.startTime))

instance : IsTotal StudySession sessLE := ⟨fun a b => le_total _ _⟩

instance : IsTrans StudySession sessLE := ⟨fun _ _ _ h h2 => le_trans h h2⟩

/-- True when the session is not marked skipped. -/
def nonSkipped (s : StudySession) : Bool := !(s.status == some SStatus.skipped)

/-- reduce((sum, session) => sum + session.allocatedHours, 0). -/
def sumAlloc (l : List StudySession) : ℚ :=
  l.foldl (fun sum s => sum + s.allocatedHours) 0

/-- One step of building sessionsByTask (TaskList.tsx:787-799) — a JS object
keyed by taskId: the first entry with the session's key gets the session
pushed at its end; a missing key appends a fresh entry at the end.  (JS
enumerates non-numeric string keys in insertion order, which this list
preserves; the combine theorems below do not depend on that choice.) -/
def addToGroups (groups : List (String × List StudySession)) (s : StudySession) :
    List (String × List StudySession) :=
  match groups with
  | [] => [(s.taskId, [s])]
  | (k, g) :: rest =>
      if k = s.taskId then (k, g ++ [s]) :: rest
      else (k, g) :: addToGroups rest s

/-- sessionsByTask (TaskList.tsx:787-799): group the non-skipped sessions by
taskId (the loop returns early on skipped sessions, i.e. filters them). -/
def groupByTask (sessions : List StudySession) :
    List (String × List StudySession) :=
  (sessions.filter nonSkipped).foldl addToGroups []

/-- Combining one task's session group (TaskList.tsx:804-827): with more
than one session, sort by start time and merge into a single session keeping
the first session's fields, the last session's end time, the summed hours,
and session number 1; otherwise keep the group as is. -/
def combineGroup (sessions : List StudySession) : List StudySession :=
  if sessions.length > 1 then
    match sessions.insertionSort sessLE with
    | [] => []
    | first :: rest =>
        [{ first with endTime := (rest.getLast?.getD first).endTime,
                      allocatedHours := sumAlloc (first :: rest),
                      sessionNumber := 1 }]
  else
    sessions

/-- Combining one task's session group with validation
(TaskList.tsx:2675-2709): as combineGroup, but a merge whose total hours
fall outside [minSess, maxSess] is rejected and the sorted sessions are kept
separate. -/
def combineGroupWithValidation (minSess maxSess : ℚ)
    (sessions : List StudySession) : List StudySession :=
  if sessions.length > 1 then
    if minSess ≤ sumAlloc (sessions.insertionSort sessLE) ∧
        sumAlloc (sessions.insertionSort sessLE) ≤ maxSess then
      match sessions.insertionSort sessLE with
      | [] => []
      | first :: rest =>
          [{ first with endTime := (rest.getLast?.getD first).endTime,
                        allocatedHours := sumAlloc (first :: rest),
                        sessionNumber := 1 }]
    else
      sessions.insertionSort sessLE
  else
    sessions

/-- combineSessionsOnSameDay on one plan (TaskList.tsx:784-836): combined
groups first, then the untouched skipped sessions, and totalStudyHours
recomputed as the done/skipped sum. -/
def combinePlan (plan : StudyPlan) : StudyPlan :=
  let combined := ((groupByTask plan.plannedTasks).map fun g => combineGroup g.2).flatten
  let skipped := plan.plannedTasks.filter fun s => s.status == some SStatus.skipped
  let newTasks := combined ++ skipped
  { plan with plannedTasks := newTasks,
              totalStudyHours := calculateTotalStudyHours newTasks }

/-- combineSessionsOnSameDay (TaskList.tsx:784-836). -/
def combineSessionsOnSameDay (studyPlans : List StudyPlan) : List StudyPlan :=
  studyPlans.map combinePlan

/-- combineSessionsOnSameDayWithValidation on one plan
(TaskList.tsx:2656-2714).  Note: unlike the plain pass, skipped sessions
are dropped from the plan (they are excluded from grouping and never added
back), and totalStudyHours is set to the sum over ALL remaining sessions. -/
def combinePlanWithValidation (minSess maxSess : ℚ) (plan : StudyPlan) :
    StudyPlan :=
  let combined := ((groupByTask plan.plannedTasks).map fun g =>
      combineGroupWithValidation minSess maxSess g.2).flatten
  { plan with plannedTasks := combined, totalStudyHours := sumAlloc combined }

/-- combineSessionsOnSameDayWithValidation (TaskList.tsx:2655-2715). -/
def combineSessionsOnSameDayWithValidation (studyPlans : List StudyPlan)
    (settings : UserSettings) : List StudyPlan :=
  studyPlans.map (combinePlanWithValidation
    ((effMinSessionLength settings : ℚ) / 60)
    (min 4 settings.dailyAvailableHours))

/-- The session group stored under a task id (empty when absent); spec-side
helper for stating properties of groupByTask. -/
def lookupGroup : List (String × List StudySession) → String → List StudySession
  | [], _ => []
  | (k, g) :: rest, tid => if k = tid then g else lookupGroup rest tid

/-- Sum of allocated hours over one task's non-skipped sessions in a plan;
spec-side helper for the conservation property. -/
def taskAllocNonSkipped (tid : String) (p : StudyPlan) : ℚ :=
  sumAlloc ((p.plannedTasks.filter nonSkipped).filter fun s => s.taskId == tid)

/-- The skipped sessions of a plan, in order; spec-side helper. -/
def skippedSessions (p : StudyPlan) : List StudySession :=
  p.plannedTasks.filter fun s => s.status == some SStatus.skipped

/-- JS Math.round. -/
def jsRound (q : ℚ) : Int := Int.floor (q + 1/2)

/-- A suggestion entry {taskTitle, unscheduledMinutes} as returned by both
generation strategies (the eisenhower helper also attaches importance and
deadline, which are outside the declared return type and not modelled). -/
structure Suggestion where
  taskTitle : String
  unscheduledMinutes : Int
  deriving DecidableEq, Repr

/-- Rank for the importance-then-deadline comparator (important first). -/
def impRank (t : Task) : Nat := if t.importance then 0 else 1

/-- The comparator used throughout generation: importance descending, then
deadline ascending; as the weak order of the source's stable sort. -/
def taskLE (a b : Task) : Prop :=
  impRank a < impRank b ∨ (impRank a = impRank b ∧ a.deadline ≤ b.deadline)

instance : DecidableRel taskLE := fun a b =>
  inferInstanceAs (Decidable (_ ∨ _))

instance : IsTotal Task taskLE := by
  constructor
  intro a b
  unfold taskLE
  omega

instance : IsTrans Task taskLE := by
  constructor
  intro a b c h1 h2
  unfold taskLE at h1 h2 ⊢
  omega

/-- Common setup of both strategies (TaskList.tsx:648-653, 1119-1124):
pending tasks with positive estimate, stably sorted by the comparator. -/
def pendingSorted (tasks : List Task) : List Task :=
  (tasks.filter fun t =>
    t.status == TStatus.pending && decide (0 < t.estimatedHours)).insertionSort taskLE

/-- The while-loop over tempDate (TaskList.tsx:666-675, 1131-1140): the days
whose midnight-to-midnight date the loop visits.  tempDate carries now's
time of day, so with nowMinutes > 0 the comparison tempDate <= latestDeadline
(midnight of the latest deadline) excludes the deadline day itself. -/
def horizonDays (today : Int) (nowMinutes : ℚ) (latest : Int) : List Int :=
  if today ≤ latest then
    (List.range ((latest - today).toNat + (if nowMinutes = 0 then 1 else 0))).map
      fun k => today + (k : Int)
  else []

/-- One step of the deadline-day re-add loops (TaskList.tsx:678-700): push a
missing work-day deadline date at the end. -/
def addDeadlineDay (workDays : List Int) (days : List Int) (d : Int) : List Int :=
  if days.contains d || !(workDays.contains (dayOfWeek d)) then days
  else days ++ [d]

/-- availableDays (TaskList.tsx:661-700 and 1126-1165): work days of the
horizon, plus each task's (buffer-adjusted) deadline day, sorted.  With no
tasks, Math.max of an empty spread is -Infinity and the loop never runs. -/
def computeAvailableDays (settings : UserSettings) (today : Int)
    (nowMinutes : ℚ) (tasks : List Task) : List Int :=
  match (tasks.map fun t => t.deadline).max? with
  | none => []
  | some latest =>
      let base := (horizonDays today nowMinutes latest).filter
        fun d => settings.workDays.contains (dayOfWeek d)
      let withDl :=
        if settings.bufferDays = 0 then
          tasks.foldl (fun acc t => addDeadlineDay settings.workDays acc t.deadline)
            base
        else
          tasks.foldl (fun acc t => addDeadlineDay settings.workDays acc
            (t.deadline - settings.bufferDays)) base
      withDl.insertionSort fun a b => a ≤ b

/-- The task's day window: available days up to its buffer-adjusted deadline
(TaskList.tsx:881-889 and elsewhere). -/
def bufferAdjDeadline (settings : UserSettings) (t : Task) : Int :=
  if settings.bufferDays > 0 then t.deadline - settings.bufferDays else t.deadline

/-- Per-date remaining-capacity map and plan list, as one generation state. -/
structure GenState where
  plans : List StudyPlan
  remaining : List (Int × ℚ)
  deriving Repr

/-- dailyRemainingHours[date] lookup (keys are pre-initialised). -/
def lookupQ (m : List (Int × ℚ)) (d : Int) : ℚ :=
  ((m.find? fun p => p.1 == d).map Prod.snd).getD 0

/-- dailyRemainingHours[date] assignment. -/
def setQ (m : List (Int × ℚ)) (d : Int) (v : ℚ) : List (Int × ℚ) :=
  m.map fun p => if p.1 == d then (p.1, v) else p

/-- assoc-map lookup keyed by task id with JS (map[id] || 0) semantics. -/
def lookupS (m : List (String × ℚ)) (k : String) : ℚ :=
  ((m.find? fun p => p.1 == k).map Prod.snd).getD 0

/-- assoc-map assignment keyed by task id. -/
def setS (m : List (String × ℚ)) (k : String) (v : ℚ) : List (String × ℚ) :=
  if (m.find? fun p => p.1 == k).isSome then
    m.map fun p => if p.1 == k then (p.1, v) else p
  else
    m ++ [(k, v)]

/-- In-place mutation of the plan found for a date. -/
def updatePlan (plans : List StudyPlan) (d : Int) (f : StudyPlan → StudyPlan) :
    List StudyPlan :=
  plans.map fun p => if p.date == d then f p else p

/-- studyPlans initialisation (TaskList.tsx:703-714, 1167-1178). -/
def initPlans (settings : UserSettings) (days : List Int) : List StudyPlan :=
  days.map fun d =>
    { id := "plan-" ++ toString d, date := d, plannedTasks := [],
      totalStudyHours := 0, availableHours := settings.dailyAvailableHours }

/-- dailyRemainingHours initialisation. -/
def initRemaining (settings : UserSettings) (days : List Int) : List (Int × ℚ) :=
  days.map fun d => (d, settings.dailyAvailableHours)

/-- The repeated session-push block of even mode (TaskList.tsx:755-768 and
914-926): append a time-less scheduled session of the given (already
rounded) length and update the day's running totals. -/
def pushSession (taskId : String) (d : Int) (hours : ℚ) (st : GenState) :
    GenState :=
  { plans := updatePlan st.plans d fun p =>
      { p with
        plannedTasks := p.plannedTasks ++
          [{ taskId := taskId, startTime := none, endTime := none,
             allocatedHours := hours,
             sessionNumber :=
               (p.plannedTasks.filter fun s => s.taskId == taskId).length + 1,
             status := some SStatus.scheduled }],
        totalStudyHours := round60 (p.totalStudyHours + hours) },
    remaining := setQ st.remaining d (round60 (lookupQ st.remaining d - hours)) }

/-- The session-creating for-loop of optimizeSessionDistribution
(TaskList.tsx:859-870); the fuel counts the sessions left to create, so the
even split divides by (numSessions - i) = fuel. -/
def optLoop (minLen maxLen : ℚ) : Nat → ℚ → List ℚ
  | 0, _ => []
  | n + 1, remaining =>
      if 0 < remaining then
        if minLen ≤ min (remaining / (n + 1 : ℚ)) (min maxLen remaining) then
          min (remaining / (n + 1 : ℚ)) (min maxLen remaining) ::
            optLoop minLen maxLen n
              (remaining - min (remaining / (n + 1 : ℚ)) (min maxLen remaining))
        else
          optLoop minLen maxLen n remaining
      else []

/-- The trailing remainder fold of optimizeSessionDistribution
(TaskList.tsx:872-875): any hours the loop left unplaced are added to the
first session. -/
def optFold (totalHours : ℚ) (sessions : List ℚ) : List ℚ :=
  match sessions with
  | [] => []
  | h :: t =>
      if 0 < totalHours - (h :: t).foldl (fun a b => a + b) 0 then
        (h + (totalHours - (h :: t).foldl (fun a b => a + b) 0)) :: t
      else h :: t

/-- optimizeSessionDistribution (TaskList.tsx:839-878).  The source receives
the day list but reads only its length. -/
def optimizeSessionDistribution (settings : UserSettings) (totalHours : ℚ)
    (numDays : Nat) : List ℚ :=
  let minLen : ℚ := (effMinSessionLength settings : ℚ) / 60
  let maxLen : ℚ := min 4 settings.dailyAvailableHours
  let numSessionsInt : Int := min (numDays : Int) (Int.floor (totalHours / minLen))
  let fuel : Nat := (if numSessionsInt = 0 then (numDays : Int) else numSessionsInt).toNat
  optFold totalHours (optLoop minLen maxLen fuel totalHours)

/-- The per-task assignment loop of even mode (TaskList.tsx:904-931) over
zip(sessionLengths, daysForTask): clip to the day's remaining capacity,
push when positive, else count the whole planned length as unscheduled. -/
def allocLoop (taskId : String) : GenState → List (ℚ × Int) → GenState × ℚ
  | st, [] => (st, 0)
  | st, (len, d) :: rest =>
      let avail := lookupQ st.remaining d
      let thisLen := min len avail
      if 0 < thisLen then
        allocLoop taskId (pushSession taskId d (round60 thisLen) st) rest
      else
        let r := allocLoop taskId st rest
        (r.1, len + r.2)

/-- The inner distribution loop of redistributeUnscheduledHours
(TaskList.tsx:747-769): like allocLoop but a session is only created when
the clipped length reaches minSessionLength, and the distributed total is
accumulated with per-step rounding. -/
def redistLoop (minLen : ℚ) (taskId : String) :
    GenState → ℚ → List (ℚ × Int) → GenState × ℚ
  | st, dist, [] => (st, dist)
  | st, dist, (len, d) :: rest =>
      let avail := lookupQ st.remaining d
      let sessionLength := min len avail
      if minLen ≤ sessionLength then
        redistLoop minLen taskId (pushSession taskId d (round60 sessionLength) st)
          (round60 (dist + round60 sessionLength)) rest
      else
        redistLoop minLen taskId st dist rest

/-- redistributeUnscheduledHours (TaskList.tsx:721-781): up to 10 rounds of
re-splitting the still-unscheduled hours over days with remaining capacity,
stopping early on an empty day set or a zero-progress round.  Returns the
state and the hours still unscheduled. -/
def redistributeRounds (settings : UserSettings) (taskId : String)
    (daysForTask : List Int) : Nat → GenState → ℚ → GenState × ℚ
  | 0, st, remaining => (st, remaining)
  | fuel + 1, st, remaining =>
      if 0 < remaining then
        let availDays := daysForTask.filter fun d => 0 < lookupQ st.remaining d
        if availDays.isEmpty then (st, remaining)
        else
          let optimal := optimizeSessionDistribution settings remaining availDays.length
          let r := redistLoop ((effMinSessionLength settings : ℚ) / 60) taskId st 0
            (optimal.zip availDays)
          let remaining2 := remaining - r.2
          if r.2 = 0 then (r.1, remaining2)
          else redistributeRounds settings taskId daysForTask fuel r.1 remaining2
      else (st, remaining)

/-- Even mode's per-task allocation (TaskList.tsx:881-943). -/
def evenAllocateTask (settings : UserSettings) (availableDays : List Int)
    (st : GenState) (task : Task) : GenState :=
  let daysForTask := availableDays.filter fun d => d ≤ bufferAdjDeadline settings task
  if daysForTask.isEmpty then st
  else
    let sessionLengths :=
      optimizeSessionDistribution settings task.estimatedHours daysForTask.length
    let r := allocLoop task.id st (sessionLengths.zip daysForTask)
    if 0 < r.2 then
      (redistributeRounds settings task.id daysForTask 10 r.1 r.2).1
    else r.1

/-- taskScheduledHours recomputation (TaskList.tsx:952-960): per-task sum of
allocated hours over non-skipped sessions of all plans. -/
def scheduledHoursFor (plans : List StudyPlan) (taskId : String) : ℚ :=
  sumAlloc ((plans.map fun p =>
    p.plannedTasks.filter fun s => s.taskId == taskId && nonSkipped s).flatten)

/-- The even-mode suggestion pass (TaskList.tsx:1014-1026). -/
def evenSuggestions (tasksEven : List Task) (plans : List StudyPlan) :
    List Suggestion :=
  tasksEven.foldr (fun t acc =>
    let unscheduled := t.estimatedHours - scheduledHoursFor plans t.id
    if 16 / 1000 < unscheduled then
      { taskTitle := t.title, unscheduledMinutes := jsRound (unscheduled * 60) } :: acc
    else acc) []

/-- Commitment applicability filter for a date (TaskList.tsx:1040-1049,
1192-1201): weekday match for recurring, date match otherwise.  Deleted
occurrences are not filtered here; the slot finder does that. -/
def commitmentsForDay (commitments : List FixedCommitment) (d : Int) :
    List FixedCommitment :=
  commitments.filter fun c =>
    if c.recurring then c.daysOfWeek.contains (dayOfWeek d)
    else c.specificDates.contains d

/-- The per-day session comparator of even mode (TaskList.tsx:1031-1038):
importance then deadline of the referenced tasks, ties (including missing
tasks) keep order. -/
def sessTaskLEb (tasks : List Task) (a b : StudySession) : Bool :=
  match tasks.find? fun t => t.id == a.taskId,
      tasks.find? fun t => t.id == b.taskId with
  | some ta, some tb => decide (taskLE ta tb)
  | _, _ => true

/-- The slot-assignment loop of even mode (TaskList.tsx:1050-1069): walk the
sorted sessions, give each the earliest open slot against the already-placed
ones, or empty times when none exists. -/
def assignSlotsGo (settings : UserSettings) (commitments : List FixedCommitment)
    (d : Int) : List StudySession → List StudySession → List StudySession
  | _, [] => []
  | assigned, s :: rest =>
      match findNextAvailableTimeSlot s.allocatedHours assigned
          (commitmentsForDay commitments d) (effWindowStart settings)
          (effWindowEnd settings) settings.bufferTimeBetweenSessions (some d) with
      | some (slotStart, slotStop) =>
          let s2 := { s with startTime := some slotStart.toNat,
                             endTime := some slotStop.toNat }
          s2 :: assignSlotsGo settings commitments d (assigned ++ [s2]) rest
      | none =>
          let s2 := { s with startTime := none, endTime := none }
          s2 :: assignSlotsGo settings commitments d assigned rest

/-- Even mode's per-plan sort-and-assign step (TaskList.tsx:1028-1070). -/
def assignTimesPlan (settings : UserSettings)
    (commitments : List FixedCommitment) (tasks : List Task) (p : StudyPlan) :
    StudyPlan :=
  let sorted := p.plannedTasks.insertionSort fun a b => sessTaskLEb tasks a b = true
  { p with plannedTasks := assignSlotsGo settings commitments p.date [] sorted }

/-- missedSessionHoursByTask (TaskList.tsx:630-659): allocated hours of
missed sessions of pending tasks, accumulated per task in scan order. -/
def missedHoursByTask (today : Int) (nowMinutes : ℚ) (tasks : List Task)
    (existingPlans : List StudyPlan) : List (String × ℚ) :=
  existingPlans.foldl (fun acc p =>
    p.plannedTasks.foldl (fun acc s =>
      if checkSessionStatus today nowMinutes s p.date == CStatus.missed then
        match tasks.find? fun t => t.id == s.taskId with
        | some t =>
            if t.status == TStatus.pending then
              setS acc s.taskId (lookupS acc s.taskId + s.allocatedHours)
            else acc
        | none => acc
      else acc) acc) []

/-- Even mode's missed-session redistribution block (TaskList.tsx:1072-1113). -/
def evenMissedRedistribution (settings : UserSettings) (availableDays : List Int)
    (tasksEven : List Task) (mm : List (String × ℚ)) (st : GenState) : GenState :=
  if mm.isEmpty then st
  else
    let tasksWithMissed := ((mm.map Prod.fst).filterMap fun tid =>
      tasksEven.find? fun t => t.id == tid).insertionSort taskLE
    let st2 := tasksWithMissed.foldl (fun acc t =>
      let missed := lookupS mm t.id
      if missed ≤ 0 then acc
      else
        (redistributeRounds settings t.id
          (availableDays.filter fun d => d ≤ bufferAdjDeadline settings t)
          10 acc missed).1) st
    { st2 with plans := combineSessionsOnSameDay st2.plans }

/-- Even-distribution strategy (TaskList.tsx:646-1117). -/
def generateEven (settings : UserSettings) (today : Int) (nowMinutes : ℚ)
    (tasks : List Task) (commitments : List FixedCommitment)
    (existingPlans : List StudyPlan) : List StudyPlan × List Suggestion :=
  let missedMap := missedHoursByTask today nowMinutes tasks existingPlans
  let tasksEven := pendingSorted tasks
  let availableDays := computeAvailableDays settings today nowMinutes tasksEven
  let st0 : GenState :=
    ⟨initPlans settings availableDays, initRemaining settings availableDays⟩
  let st1 := tasksEven.foldl (evenAllocateTask settings availableDays) st0
  let st2 := { st1 with plans := combineSessionsOnSameDay st1.plans }
  let tasksWith := tasksEven.filter fun t =>
    decide (0 < t.estimatedHours - scheduledHoursFor st2.plans t.id)
  let afterGlobal :=
    if tasksWith.isEmpty then (st2, st2.plans)
    else
      let sorted := tasksWith.insertionSort taskLE
      let st3 := sorted.foldl (fun acc t =>
        let unscheduled := t.estimatedHours - scheduledHoursFor st2.plans t.id
        if unscheduled ≤ 0 then acc
        else
          (redistributeRounds settings t.id
            (availableDays.filter fun d => d ≤ bufferAdjDeadline settings t)
            10 acc unscheduled).1) st2
      ({ st3 with plans := combineSessionsOnSameDay st3.plans }, st3.plans)
  let suggestions := evenSuggestions tasksEven afterGlobal.2
  let st4 := afterGlobal.1
  let st5 : GenState :=
    { st4 with plans := st4.plans.map (assignTimesPlan settings commitments tasksEven) }
  let st6 := evenMissedRedistribution settings availableDays tasksEven missedMap st5
  (st6.plans, suggestions)

/-- The eisenhower inner task loop for one day (TaskList.tsx:1212-1248).
State: the day plan's sessions, its running totalStudyHours, the remaining
day capacity, and the per-task scheduled-hours map. -/
def eisTaskLoop (settings : UserSettings) (commitments : List FixedCommitment)
    (d : Int) :
    List Task → List StudySession × ℚ × ℚ × List (String × ℚ) →
    List StudySession × ℚ × ℚ × List (String × ℚ)
  | [], acc => acc
  | t :: rest, (sessions, tot, avail, sched) =>
      if avail ≤ 0 then (sessions, tot, avail, sched)
      else
        let remainingTask := t.estimatedHours - lookupS sched t.id
        if remainingTask ≤ 0 then
          eisTaskLoop settings commitments d rest (sessions, tot, avail, sched)
        else
          let hoursToSchedule := min remainingTask avail
          if 0 < hoursToSchedule then
            match findNextAvailableTimeSlot hoursToSchedule sessions
                (commitmentsForDay commitments d) (effWindowStart settings)
                (effWindowEnd settings) settings.bufferTimeBetweenSessions
                (some d) with
            | none =>
                eisTaskLoop settings commitments d rest (sessions, tot, avail, sched)
            | some (slotStart, slotStop) =>
                let alloc := round60 hoursToSchedule
                let s : StudySession :=
                  { taskId := t.id, startTime := some slotStart.toNat,
                    endTime := some slotStop.toNat, allocatedHours := alloc,
                    sessionNumber :=
                      (sessions.filter fun x => x.taskId == t.id).length + 1,
                    status := some SStatus.scheduled }
                eisTaskLoop settings commitments d rest
                  (sessions ++ [s], round60 (tot + alloc),
                    round60 (avail - alloc),
                    setS sched t.id (round60 (lookupS sched t.id + alloc)))
          else
            eisTaskLoop settings commitments d rest (sessions, tot, avail, sched)

/-- The suggestion threshold of getUnscheduledMinutesForTasks
(TaskList.tsx:1359): the raw minSessionLength in hours
(settings?.minSessionLength ? ... : 0.016), so a zero value falls back to
0.016 hours. -/
def suggestionThreshold (settings : UserSettings) : ℚ :=
  if settings.minSessionLength ≠ 0 then (settings.minSessionLength : ℚ) / 60
  else 16 / 1000

/-- getUnscheduledMinutesForTasks (TaskList.tsx:1358-1377). -/
def getUnscheduledMinutesForTasks (tasks : List Task)
    (sched : List (String × ℚ)) (settings : UserSettings) : List Suggestion :=
  (tasks.filter fun t => t.status == TStatus.pending).foldr (fun t acc =>
    if suggestionThreshold settings < max 0 (t.estimatedHours - lookupS sched t.id) then
      { taskTitle := t.title,
        unscheduledMinutes := jsRound (max 0 (t.estimatedHours - lookupS sched t.id) * 60) } :: acc
    else acc) []

/-- One horizon date of the eisenhower pass (TaskList.tsx:1188-1249):
filter the tasks still needing hours whose (buffer-adjusted) deadline has
not passed, run the greedy task loop, and record the day's plan. -/
def eisDayStep (settings : UserSettings) (commitments : List FixedCommitment)
    (tasksSorted : List Task) (acc : List StudyPlan × List (String × ℚ))
    (d : Int) : List StudyPlan × List (String × ℚ) :=
  let tasksForDay := tasksSorted.filter fun t =>
    decide (lookupS acc.2 t.id < t.estimatedHours) &&
      decide (d ≤ bufferAdjDeadline settings t)
  let r := eisTaskLoop settings commitments d tasksForDay
    ([], 0, settings.dailyAvailableHours, acc.2)
  let newPlan : StudyPlan :=
    { id := "plan-" ++ toString d, date := d, plannedTasks := r.1,
      totalStudyHours := r.2.1,
      availableHours := settings.dailyAvailableHours }
  (acc.1 ++ [newPlan], r.2.2.2)

/-- Eisenhower strategy (TaskList.tsx:1118-1254): one forward pass over the
horizon, greedy per-day allocation in priority order with immediate slot
placement. -/
def generateEisenhower (settings : UserSettings) (today : Int) (nowMinutes : ℚ)
    (tasks : List Task) (commitments : List FixedCommitment) :
    List StudyPlan × List Suggestion :=
  let tasksSorted := pendingSorted tasks
  let availableDays := computeAvailableDays settings today nowMinutes tasksSorted
  let step := availableDays.foldl (eisDayStep settings commitments tasksSorted)
    ([], tasksSorted.map fun t => (t.id, (0 : ℚ)))
  (step.1, getUnscheduledMinutesForTasks tasksSorted step.2 settings)

/-- generateNewStudyPlan (TaskList.tsx:624-1254): dispatch on studyPlanMode
(the collected missed sessions are read only by the even branch). -/
def generateNewStudyPlan (settings : UserSettings) (today : Int)
    (nowMinutes : ℚ) (tasks : List Task) (commitments : List FixedCommitment)
    (existingPlans : List StudyPlan) : List StudyPlan × List Suggestion :=
  if settings.studyPlanMode == Mode.even then
    generateEven settings today nowMinutes tasks commitments existingPlans
  else
    generateEisenhower settings today nowMinutes tasks commitments

/-- Per-task allocated hours among the non-skipped sessions of one list;
the per-day building block of scheduledHoursFor. -/
def daySum (l : List StudySession) (tid : String) : ℚ :=
  sumAlloc (l.filter fun s => s.taskId == tid && nonSkipped s)

/-- The (1/60)-grid: the rationals of the form k/60.  All hour quantities the
engine produces stay on this grid, where round60 is the identity. -/
def Qgrid (q : ℚ) : Prop := ∃ k : Int, q = (k : ℚ) / 60

/-- Concrete settings for the C2 counterexample run: even mode, 8 available
hours per day, all week days, no buffers, 15-minute minimum sessions,
window 6-23. -/
def c2Settings : UserSettings :=
  { dailyAvailableHours := 8, workDays := [0, 1, 2, 3, 4, 5, 6],
    bufferDays := 0, minSessionLength := 15, bufferTimeBetweenSessions := 0,
    studyWindowStartHour := 6, studyWindowEndHour := 23,
    studyPlanMode := Mode.even }

/-- Concrete task for the C2 counterexample run: 10 estimated hours due the
day after today (day 700). -/
def c2Task : Task :=
  { id := "t1", title := "T1", deadline := 701, importance := false,
    estimatedHours := 10, status := TStatus.pending }

/-- Concrete settings for the C5 counterexample run: as c2Settings but in
eisenhower mode. -/
def c5Settings : UserSettings :=
  { dailyAvailableHours := 8, workDays := [0, 1, 2, 3, 4, 5, 6],
    bufferDays := 0, minSessionLength := 15, bufferTimeBetweenSessions := 0,
    studyWindowStartHour := 6, studyWindowEndHour := 23,
    studyPlanMode := Mode.eisenhower }

/-- Concrete task for the C5 counterexample run. -/
def c5Task : Task :=
  { id := "t1", title := "T1", deadline := 701, importance := false,
    estimatedHours := 2, status := TStatus.pending }

/-- Concrete settings for the C8 counterexample run: eisenhower mode with a
2-hour study window (8-10) but 4 available hours per day, so an oversized
first-priority session cannot be placed while a smaller one can. -/
def c8Settings : UserSettings :=
  { dailyAvailableHours := 4, workDays := [0, 1, 2, 3, 4, 5, 6],
    bufferDays := 0, minSessionLength := 15, bufferTimeBetweenSessions := 0,
    studyWindowStartHour := 8, studyWindowEndHour := 10,
    studyPlanMode := Mode.eisenhower }

/-- The important task of the C8 runs: 10 estimated hours, importance set. -/
def c8TaskImp : Task :=
  { id := "imp", title := "Important", deadline := 701, importance := true,
    estimatedHours := 10, status := TStatus.pending }

/-- The unimportant task of the C8 runs: 1 estimated hour. -/
def c8TaskUnimp : Task :=
  { id := "unimp", title := "Unimportant", deadline := 701,
    importance := false, estimatedHours := 1, status := TStatus.pending }

/-- Concrete settings for the C8 witness run: eisenhower mode, 2 available
hours per day inside a 6-23 window, so the daily capacity always fits the
window and the amended theorem applies. -/
def c8wSettings : UserSettings :=
  { dailyAvailableHours := 2, workDays := [0, 1, 2, 3, 4, 5, 6],
    bufferDays := 0, minSessionLength := 15, bufferTimeBetweenSessions := 0,
    studyWindowStartHour := 6, studyWindowEndHour := 23,
    studyPlanMode := Mode.eisenhower }

/-- A free time slot (minutes after the target day's midnight), as produced
by getDailyAvailableTimeSlots.  Durations can be fractional (capacity
clipping), so the bounds are rationals. -/
structure TimeSlot where
  start : ℚ
  stop : ℚ
  deriving DecidableEq, Repr

/-- Resolved start minutes of a commitment for a date in
getDailyAvailableTimeSlots (TaskList.tsx:1432,1441):
modifiedOccurrences[date]?.startTime || base — a correct partial override,
unlike the slot finder's pairing. -/
def dayCommitStart (c : FixedCommitment) (d : Int) : Nat :=
  match (c.modifiedOccurrences.find? fun p => p.1 == d).map Prod.snd with
  | some m => m.startTime.getD c.startTime
  | none => c.startTime

/-- Resolved end minutes of a commitment for a date in
getDailyAvailableTimeSlots (TaskList.tsx:1445). -/
def dayCommitEnd (c : FixedCommitment) (d : Int) : Nat :=
  match (c.modifiedOccurrences.find? fun p => p.1 == d).map Prod.snd with
  | some m => m.endTime.getD c.endTime
  | none => c.endTime

/-- Commitment applicability filter of getDailyAvailableTimeSlots
(TaskList.tsx:1404-1417): weekday match for recurring, date match otherwise,
and not a deleted occurrence of the date. -/
def dayCommitments (commitments : List FixedCommitment) (d : Int) :
    List FixedCommitment :=
  commitments.filter fun c =>
    (if c.recurring then c.daysOfWeek.contains (dayOfWeek d)
     else c.specificDates.contains d) && !(c.deletedOccurrences.contains d)

/-- The sort relation of getDailyAvailableTimeSlots (TaskList.tsx:1431-1435):
localeCompare on zero-padded "HH:MM" strings = numeric order of the resolved
start minutes. -/
def dayCommitLE (d : Int) (a b : FixedCommitment) : Prop :=
  dayCommitStart a d ≤ dayCommitStart b d

instance (d : Int) : DecidableRel (dayCommitLE d) := fun a b =>
  inferInstanceAs (Decidable (_ ≤ _))

instance (d : Int) : IsTotal FixedCommitment (dayCommitLE d) :=
  ⟨fun a b => Nat.le_total _ _⟩

instance (d : Int) : IsTrans FixedCommitment (dayCommitLE d) :=
  ⟨fun _ _ _ => Nat.le_trans⟩

/-- One commitment step of getDailyAvailableTimeSlots (TaskLists.tsx:1437-1461):
a slot before the commitment when time and capacity allow, cursor jumps to
the commitment's end unconditionally.  State: (currentTime, usedMinutes,
slots). -/
def slotStep (d : Int) (total : ℚ) (st : ℚ × ℚ × List TimeSlot)
    (c : FixedCommitment) : ℚ × ℚ × List TimeSlot :=
  let cs : ℚ := (dayCommitStart c d : ℚ)
  let ce : ℚ := (dayCommitEnd c d : ℚ)
  if st.1 < cs then
    if st.2.1 + (cs - st.1) ≤ total then
      (ce, st.2.1 + (cs - st.1), st.2.2 ++ [{ start := st.1, stop := cs }])
    else (ce, st.2.1, st.2.2)
  else (ce, st.2.1, st.2.2)

/-- getDailyAvailableTimeSlots (TaskList.tsx:1385-1481): free slots of one
day between the day's commitments inside the [startHour, endHour] window,
capped at dailyHours of total slot time (slots that would exceed the cap are
dropped; the final slot is clipped to the remaining capacity). -/
def getDailyAvailableTimeSlots (d : Int) (dailyHours : ℚ)
    (commitments : List FixedCommitment) (workDays : List Int)
    (startHour endHour : Nat) : List TimeSlot :=
  if !(workDays.contains (dayOfWeek d)) then []
  else
    let total := dailyHours * 60
    let sorted := (dayCommitments commitments d).insertionSort (dayCommitLE d)
    let r := sorted.foldl (slotStep d total) (((startHour : ℚ)) * 60, 0, [])
    if r.1 < (endHour : ℚ) * 60 then
      if 0 < min ((endHour : ℚ) * 60 - r.1) (total - r.2.1) then
        r.2.2 ++ [{ start := r.1,
                    stop := r.1
                      + min ((endHour : ℚ) * 60 - r.1) (total - r.2.1) }]
      else r.2.2
    else r.2.2

/-- The missed-session count of handleRedistributionEdgeCases
(TaskList.tsx:2836-2841). -/
def missedCount (today : Int) (nowMinutes : ℚ) (plans : List StudyPlan) : Nat :=
  (plans.map fun p => (p.plannedTasks.filter fun s =>
    checkSessionStatus today nowMinutes s p.date == CStatus.missed).length).sum

/-- The total missed hours of handleRedistributionEdgeCases
(TaskList.tsx:2877-2882). -/
def totalMissedHours (today : Int) (nowMinutes : ℚ)
    (plans : List StudyPlan) : ℚ :=
  plans.foldl (fun sum p =>
    sum + (p.plannedTasks.filter fun s =>
      checkSessionStatus today nowMinutes s p.date == CStatus.missed).foldl
        (fun a s => a + s.allocatedHours) 0) 0

/-- One day's available hours as summed by handleRedistributionEdgeCases
(TaskList.tsx:2854-2869): slot lengths in hours. -/
def dayHoursFor (settings : UserSettings) (commitments : List FixedCommitment)
    (d : Int) : ℚ :=
  (getDailyAvailableTimeSlots d settings.dailyAvailableHours commitments
    settings.workDays (effWindowStart settings) (effWindowEnd settings)).foldl
    (fun sum sl => sum + (sl.stop - sl.start) / 60) 0

/-- The 8-day availability scan of handleRedistributionEdgeCases
(TaskList.tsx:2849-2874): dayOffset 0..7, work days only; returns (total
available hours, number of days with positive hours). -/
def availScan (settings : UserSettings) (commitments : List FixedCommitment)
    (today : Int) : ℚ × Nat :=
  (List.range 8).foldl (fun acc k =>
    if settings.workDays.contains (dayOfWeek (today + (k : Int))) then
      (acc.1 + dayHoursFor settings commitments (today + (k : Int)),
       if 0 < dayHoursFor settings commitments (today + (k : Int)) then
         acc.2 + 1 else acc.2)
    else acc) (0, 0)

/-- The urgent-task filter of handleRedistributionEdgeCases
(TaskList.tsx:2899-2903): pending tasks whose deadline lies strictly in the
future but within one day of now. -/
def urgentTasks (today : Int) (nowMinutes : ℚ) (tasks : List Task) :
    List Task :=
  tasks.filter fun t =>
    decide (0 < (((t.deadline - today : Int) : ℚ) * 1440 - nowMinutes) / 1440)
      && decide ((((t.deadline - today : Int) : ℚ) * 1440 - nowMinutes) / 1440
        ≤ 1)
      && (t.status == TStatus.pending)

/-- The issue tags handleRedistributionEdgeCases can push
(TaskList.tsx:2843-2908); the source's strings, by identity. -/
inductive GateIssue
  | noMissed
  | insufficientTime
  | noWorkDays
  | urgent (n : Nat)
  deriving DecidableEq, Repr

/-- handleRedistributionEdgeCases (TaskList.tsx:2822-2926): early return on
zero missed sessions, then issues for insufficient hours, no available work
days, and urgent (deadline within a day) tasks; past-deadline tasks only log
a warning.  canRedistribute = issues is empty. -/
def handleRedistributionEdgeCases (today : Int) (nowMinutes : ℚ)
    (plans : List StudyPlan) (settings : UserSettings)
    (commitments : List FixedCommitment) (tasks : List Task) :
    Bool × List GateIssue :=
  if missedCount today nowMinutes plans = 0 then (false, [GateIssue.noMissed])
  else
    let scan := availScan settings commitments today
    let issues1 : List GateIssue :=
      if totalMissedHours today nowMinutes plans > scan.1 then
        [GateIssue.insufficientTime]
      else []
    let issues2 :=
      if scan.2 = 0 then issues1 ++ [GateIssue.noWorkDays] else issues1
    let issues3 :=
      if 0 < (urgentTasks today nowMinutes tasks).length then
        issues2 ++ [GateIssue.urgent (urgentTasks today nowMinutes tasks).length]
      else issues2
    (issues3.isEmpty, issues3)

/-!
moveMissedSessions (TaskList.tsx:1527-1901) models the source's aliasing
explicitly.  The source copies the ARRAY shallowly ([...studyPlans], line
1533) but shares the plan OBJECTS, then mutates those objects in place
(pushing the moved copy onto the target plan, splicing the original out,
recombining, orphan cleanup).  Plans created during the run (for target
dates with no plan yet) exist only in the copied array.  Every mutation of
an original plan object is therefore visible through the input array too, so
the source's "rollback" (returning studyPlans, lines 1885-1894) actually
returns the mutated original plan objects, merely without the newly created
plans.  We carry each plan with an isNew flag and read the rollback result
as the mutated list restricted to the original (not-new) plans, in their
original order (the array itself is only ever appended to).
-/

/-- Priority score of a missed session (TaskList.tsx:1554-1563):
importance bonus plus a deadline-proximity score, with a large bonus for
past deadlines. -/
def missedPriority (today : Int) (nowMinutes : ℚ) (tasks : List Task)
    (s : StudySession) : ℚ :=
  match tasks.find? fun t => t.id == s.taskId with
  | none => 0
  | some task =>
      (if task.importance then 1000 else 0) +
        (if (((task.deadline - today : Int) : ℚ) * 1440 - nowMinutes) / 1440
            < 0 then 2000
         else max 0 (100 -
           (((task.deadline - today : Int) : ℚ) * 1440 - nowMinutes) / 1440))

/-- One collected missed session with its origin (TaskList.tsx:1539-1576);
sessionIndex is not carried because the removal path looks the session up by
taskId and sessionNumber. -/
structure MissedItem where
  session : StudySession
  planDate : Int
  planIndex : Nat
  priority : ℚ
  deriving DecidableEq, Repr

/-- The missed-session collection pass (TaskList.tsx:1544-1576). -/
def collectMissed (today : Int) (nowMinutes : ℚ) (tasks : List Task)
    (plans : List StudyPlan) : List MissedItem :=
  (plans.enum.map fun pi =>
    (pi.2.plannedTasks.filter fun s =>
      checkSessionStatus today nowMinutes s pi.2.date == CStatus.missed).map
      fun s => { session := s, planDate := pi.2.date, planIndex := pi.1,
                 priority := missedPriority today nowMinutes tasks s }).flatten

/-- The priority sort relation (TaskList.tsx:1579, comparator
b.priority - a.priority): highest priority first, ties keep order. -/
def priLE (a b : MissedItem) : Prop := b.priority ≤ a.priority

instance : DecidableRel priLE := fun a b =>
  inferInstanceAs (Decidable (_ ≤ _))

instance : IsTotal MissedItem priLE := ⟨fun a b => le_total _ _⟩

instance : IsTrans MissedItem priLE := ⟨fun _ _ _ h1 h2 => le_trans h2 h1⟩

/-- One step of building sessionsByTask (TaskList.tsx:1742-1748), a JS
object keyed by taskId (first-seen key order). -/
def addToGroupsM (groups : List (String × List MissedItem)) (m : MissedItem) :
    List (String × List MissedItem) :=
  if (groups.find? fun g => g.1 == m.session.taskId).isSome then
    groups.map fun g =>
      if g.1 == m.session.taskId then (g.1, g.2 ++ [m]) else g
  else
    groups ++ [(m.session.taskId, [m])]

/-- sessionsByTask (TaskList.tsx:1742-1748). -/
def groupMissed (l : List MissedItem) : List (String × List MissedItem) :=
  l.foldl addToGroupsM []

/-- getBusyTimeSlots (TaskList.tsx:1582-1629): base intervals of the
commitments applicable to the day (deleted and modified occurrences are NOT
consulted here) plus the non-skipped sessions of the CURRENT plan for the
date, sorted by start. -/
def getBusyTimeSlots (plans : List StudyPlan)
    (commitments : List FixedCommitment) (d : Int) : List BusyInterval :=
  let fromCommitments := (commitmentsForDay commitments d).map fun c =>
    ({ start := (c.startTime : Int), stop := (c.endTime : Int) } : BusyInterval)
  let fromSessions :=
    match plans.find? fun p => p.date == d with
    | none => []
    | some p => (p.plannedTasks.filter fun s =>
        !(s.status == some SStatus.skipped)).map sessionInterval
  (fromCommitments ++ fromSessions).insertionSort startLE

/-- findAvailableTimeSlots (TaskList.tsx:1632-1672): gaps of at least
minSessionLength between the busy slots inside the study window; the cursor
jumps to each busy slot's end unconditionally. -/
def findAvailableTimeSlots (plans : List StudyPlan)
    (commitments : List FixedCommitment) (settings : UserSettings) (d : Int) :
    List BusyInterval :=
  let ws : Int := (effWindowStart settings : Int) * 60
  let we : Int := (effWindowEnd settings : Int) * 60
  let r := (getBusyTimeSlots plans commitments d).foldl
    (fun (st : Int × List BusyInterval) b =>
      if st.1 < b.start ∧ (effMinSessionLength settings : ℚ) / 60
          ≤ ((b.start - st.1 : Int) : ℚ) / 60 then
        (b.stop, st.2 ++ [{ start := st.1, stop := b.start }])
      else (b.stop, st.2)) (ws, [])
  if r.1 < we ∧ (effMinSessionLength settings : ℚ) / 60
      ≤ ((we - r.1 : Int) : ℚ) / 60 then
    r.2 ++ [{ start := r.1, stop := we }]
  else r.2

/-- The acceptance test of tryMoveSession for one candidate slot
(TaskList.tsx:1695-1733): the slot is long enough, placing the session at
the slot's start conflicts (buffer included) with no busy slot, and either
the session would count as missed on the target date or its duration obeys
the length constraints. -/
def slotOK (plans : List StudyPlan) (commitments : List FixedCommitment)
    (settings : UserSettings) (today : Int) (nowMinutes : ℚ)
    (session : StudySession) (d : Int) (slot : BusyInterval) : Bool :=
  let dur := session.allocatedHours
  decide (dur ≤ ((slot.stop - slot.start : Int) : ℚ) / 60) &&
    !((getBusyTimeSlots plans commitments d).any fun b =>
      decide ((slot.start : ℚ) - (settings.bufferTimeBetweenSessions : ℚ)
          < (b.stop : ℚ)) &&
      decide ((slot.start : ℚ) + dur * 60
          + (settings.bufferTimeBetweenSessions : ℚ) > (b.start : ℚ))) &&
    ((checkSessionStatus today nowMinutes session d == CStatus.missed) ||
      (decide ((effMinSessionLength settings : ℚ) / 60 ≤ dur) &&
       decide (dur ≤ min 4 settings.dailyAvailableHours)))

/-- tryMoveSession (TaskList.tsx:1675-1739): scan today..today+14, work days
only, and return the first day and slot start that fits. -/
def tryMoveSession (plans : List StudyPlan)
    (commitments : List FixedCommitment) (settings : UserSettings)
    (today : Int) (nowMinutes : ℚ) (session : StudySession) :
    Option (Int × Int) :=
  (List.range 15).findSome? fun k =>
    if settings.workDays.contains (dayOfWeek (today + (k : Int))) then
      match (findAvailableTimeSlots plans commitments settings
          (today + (k : Int))).find? fun slot =>
          slotOK plans commitments settings today nowMinutes session
            (today + (k : Int)) slot with
      | some slot => some (today + (k : Int), slot.start)
      | none => none
    else none

/-- In-place update of the element at an index (updatedPlans[planIndex] is
mutated; the array is only appended to, so the index is stable). -/
def modifyAt (i : Nat) (f : α → α) : List α → List α
  | [] => []
  | x :: xs =>
      match i with
      | 0 => f x :: xs
      | n + 1 => x :: modifyAt n f xs

/-- In-place update of the first element satisfying a predicate
(the source's find returns the first matching plan object). -/
def updateFirst (p : α → Bool) (f : α → α) : List α → List α
  | [] => []
  | x :: xs => if p x then f x :: xs else x :: updateFirst p f xs

/-- One successful move (TaskList.tsx:1763-1819): the moved copy keeps the
original time/date, is pushed onto the (found or created) target plan whose
totalStudyHours is re-rounded, and the original is spliced out of the plan
at the recorded index (looked up by taskId and sessionNumber). -/
def applyMove (settings : UserSettings)
    (st : List (StudyPlan × Bool) × List StudySession × List StudySession)
    (item : MissedItem) (target : Int × Int) :
    List (StudyPlan × Bool) × List StudySession × List StudySession :=
  let dur := item.session.allocatedHours
  let newSession : StudySession :=
    { item.session with
        originalTime := item.session.startTime,
        originalDate := some item.planDate,
        status := some SStatus.scheduled,
        startTime := some target.2.toNat,
        endTime := some (target.2 + jsRound (dur * 60)).toNat }
  let plansWithTarget :=
    if (st.1.find? fun pb => pb.1.date == target.1).isSome then
      updateFirst (fun pb => pb.1.date == target.1)
        (fun pb =>
          ({ pb.1 with
              plannedTasks := pb.1.plannedTasks ++ [newSession],
              totalStudyHours := round60 (pb.1.totalStudyHours + dur) },
           pb.2)) st.1
    else
      st.1 ++ [({ id := "plan-" ++ toString target.1,
                  date := target.1,
                  plannedTasks := [newSession],
                  totalStudyHours := round60 (0 + dur),
                  availableHours := settings.dailyAvailableHours }, true)]
  let plansRemoved := modifyAt item.planIndex
    (fun pb => ({ pb.1 with
        plannedTasks := pb.1.plannedTasks.eraseP fun s =>
          s.taskId == item.session.taskId
            && s.sessionNumber == item.session.sessionNumber }, pb.2))
    plansWithTarget
  (plansRemoved, st.2.1 ++ [newSession], st.2.2)

/-- One item of the move loop (TaskList.tsx:1757-1826): try to move, apply
the move or record the failure. -/
def moveStep (commitments : List FixedCommitment) (settings : UserSettings)
    (today : Int) (nowMinutes : ℚ)
    (st : List (StudyPlan × Bool) × List StudySession × List StudySession)
    (item : MissedItem) :
    List (StudyPlan × Bool) × List StudySession × List StudySession :=
  match tryMoveSession (st.1.map Prod.fst) commitments settings today
      nowMinutes item.session with
  | some target => applyMove settings st item target
  | none => (st.1, st.2.1, st.2.2 ++ [item.session])

/-- cleanupOrphanedSessions (TaskList.tsx:1832-1861): drop from every plan
the scheduled sessions that still sit in their original plan although the
same (taskId, sessionNumber, originalDate) was successfully moved. -/
def cleanupOrphaned (moved : List StudySession) (p : StudyPlan) : StudyPlan :=
  { p with plannedTasks := p.plannedTasks.filter fun s =>
      !(s.originalTime.isSome && s.originalDate.isSome
        && (s.status == some SStatus.scheduled)
        && (s.originalDate == some p.date)
        && moved.any fun m => m.taskId == s.taskId
            && m.sessionNumber == s.sessionNumber
            && m.originalDate == s.originalDate) }

/-- Overlap test of validateStudyPlanConflicts (TaskList.tsx:1913-1934):
both sessions carry (truthy) times and the minute intervals intersect. -/
def sessionsOverlap (a b : StudySession) : Bool :=
  a.startTime.isSome && a.endTime.isSome
    && b.startTime.isSome && b.endTime.isSome
    && decide ((a.startTime.getD 0 : Int) < (b.endTime.getD 0 : Int))
    && decide ((a.endTime.getD 0 : Int) > (b.startTime.getD 0 : Int))

/-- All ordered pairs i < j of the overlap scan. -/
def anyPairOverlap : List StudySession → Bool
  | [] => false
  | s :: rest => rest.any (sessionsOverlap s) || anyPairOverlap rest

/-- validateStudyPlanConflicts (TaskList.tsx:1904-1964): overlap among
non-skipped sessions, daily-limit breach by the regular (non-missed,
non-redistributed) sessions, or a length-constraint breach by a regular
session.  The fixedCommitments parameter of the source is unused. -/
def validateStudyPlanConflicts (today : Int) (nowMinutes : ℚ)
    (plans : List StudyPlan) (settings : UserSettings) : Bool :=
  plans.any fun p =>
    anyPairOverlap (p.plannedTasks.filter fun s =>
        !(s.status == some SStatus.skipped)) ||
      decide (((p.plannedTasks.filter fun s =>
          !(s.status == some SStatus.skipped)
            && !(isMissedOrRedistributedSession today nowMinutes s p.date)).foldl
          (fun sum s => sum + s.allocatedHours) 0)
        > settings.dailyAvailableHours) ||
      (p.plannedTasks.filter fun s =>
          !(s.status == some SStatus.skipped)).any fun s =>
        !(isMissedOrRedistributedSession today nowMinutes s p.date) &&
          (decide (s.allocatedHours < (effMinSessionLength settings : ℚ) / 60)
            || decide (s.allocatedHours > min 4 settings.dailyAvailableHours))

/-- moveMissedSessions (TaskList.tsx:1527-1901).  Returns (updatedPlans,
movedSessions, failedSessions).  On validation rollback the source returns
the input ARRAY whose plan objects it has mutated: modelled as the mutated
plan list restricted to the original (not-new) plans, with every missed
candidate reported failed. -/
def moveMissedSessions (today : Int) (nowMinutes : ℚ)
    (studyPlans : List StudyPlan) (settings : UserSettings)
    (commitments : List FixedCommitment) (tasks : List Task) :
    List StudyPlan × List StudySession × List StudySession :=
  let missed := (collectMissed today nowMinutes tasks studyPlans).insertionSort
    priLE
  let st := (groupMissed missed).foldl (fun st g =>
      (g.2.insertionSort priLE).foldl
        (moveStep commitments settings today nowMinutes) st)
    (studyPlans.map fun p => (p, false), [], [])
  let plansPost := st.1.map fun pb =>
    (cleanupOrphaned st.2.1 (combinePlanWithValidation
      ((effMinSessionLength settings : ℚ) / 60)
      (min 4 settings.dailyAvailableHours) pb.1), pb.2)
  if validateStudyPlanConflicts today nowMinutes (plansPost.map Prod.fst)
      settings then
    ((plansPost.filter fun pb => !pb.2).map Prod.fst, [],
      missed.map fun m => m.session)
  else
    (plansPost.map Prod.fst, st.2.1, st.2.2)

/-- Return record of redistributeMissedSessionsWithFeedback (the feedback
fields the claims read). -/
structure RedistributionResult where
  updatedPlans : List StudyPlan
  movedSessions : List StudySession
  failedSessions : List StudySession
  success : Bool
  issues : List GateIssue
  deriving DecidableEq, Repr

/-- redistributeMissedSessionsWithFeedback (TaskList.tsx:2718-2819): run the
edge-case gate; on refusal return the input plans untouched with the gate's
issues; otherwise run moveMissedSessions and report success when anything
moved. -/
def redistributeMissedSessionsWithFeedback (today : Int) (nowMinutes : ℚ)
    (studyPlans : List StudyPlan) (settings : UserSettings)
    (commitments : List FixedCommitment) (tasks : List Task) :
    RedistributionResult :=
  let gate := handleRedistributionEdgeCases today nowMinutes studyPlans
    settings commitments tasks
  if !gate.1 then
    { updatedPlans := studyPlans, movedSessions := [], failedSessions := [],
      success := false, issues := gate.2 }
  else
    let r := moveMissedSessions today nowMinutes studyPlans settings
      commitments tasks
    { updatedPlans := r.1, movedSessions := r.2.1, failedSessions := r.2.2,
      success := decide (0 < r.2.1.length), issues := [] }

/-- Settings for the C1 and C6 concrete runs: all week days, 6-23 window,
8 hours per day, 15-minute minimum, no buffers. -/
def c1Settings : UserSettings :=
  { dailyAvailableHours := 8, workDays := [0, 1, 2, 3, 4, 5, 6],
    bufferDays := 0, minSessionLength := 15, bufferTimeBetweenSessions := 0,
    studyWindowStartHour := 6, studyWindowEndHour := 23,
    studyPlanMode := Mode.even }

/-- The missed session of the C1 run: scheduled 8:00-9:00 on day 99 (one day
before today = 100), one hour. -/
def c1Missed : StudySession :=
  { taskId := "t1", startTime := some 480, endTime := some 540,
    allocatedHours := 1, sessionNumber := 1,
    status := some SStatus.scheduled }

/-- The C1 input plans: day 99 holds the missed session; day 100 (today)
holds two OVERLAPPING scheduled sessions, so the post-redistribution
validation necessarily reports a conflict and the rollback path runs. -/
def c1Plans : List StudyPlan :=
  [{ id := "plan-99", date := 99, plannedTasks := [c1Missed],
     totalStudyHours := 0, availableHours := 8 },
   { id := "plan-100", date := 100,
     plannedTasks :=
       [{ taskId := "t2", startTime := some 600, endTime := some 660,
          allocatedHours := 1, sessionNumber := 1,
          status := some SStatus.scheduled },
        { taskId := "t3", startTime := some 630, endTime := some 690,
          allocatedHours := 1, sessionNumber := 1,
          status := some SStatus.scheduled }],
     totalStudyHours := 0, availableHours := 8 }]

/-- The tasks of the C1 run (read only for priority scoring and the gate). -/
def c1Tasks : List Task :=
  [{ id := "t1", title := "T1", deadline := 200, importance := false,
     estimatedHours := 5, status := TStatus.pending }]

/-- The C6 input plans: one missed one-hour session on day 99. -/
def c6Plans : List StudyPlan :=
  [{ id := "plan-99", date := 99, plannedTasks := [c1Missed],
     totalStudyHours := 0, availableHours := 8 }]

/-- The C6 task: pending with a deadline (day 101) within one day of now
(day 100, 10:00), which triggers the gate's urgent-task refusal. -/
def c6Tasks : List Task :=
  [{ id := "t9", title := "Urgent", deadline := 101, importance := false,
     estimatedHours := 2, status := TStatus.pending }]

/- Batteries marks the arithmetic of Rat irreducible, which blocks elaborator
whnf during decide; the kernel itself reduces these fine.  Making them
semireducible again lets concrete evaluations go through by decide. -/
attribute [local semireducible] Rat.add Rat.mul Rat.sub Rat.inv

/-- The slot returned by the search loop starts at the cursor or later, has
exactly the required length, and clears every busy interval of the (sorted)
list: each interval either starts at or after the slot's end, or ends at
least the buffer before the slot's start. -/
theorem findSlotLoop_sound (req buf eod : Int) :
    ∀ (l : List BusyInterval) (cur s e : Int), l.Sorted startLE →
      findSlotLoop req buf eod cur l = some (s, e) →
      e = s + req ∧ cur ≤ s ∧ ∀ i ∈ l, s + req ≤ i.start ∨ i.stop + buf ≤ s := by
  intro l
  induction l with
  | nil =>
      intro cur s e _ h
      simp only [findSlotLoop] at h
      split at h
      · simp only [Option.some.injEq, Prod.mk.injEq] at h
        refine ⟨by omega, by omega, by simp⟩
      · exact absurd h (by simp)
  | cons i rest ih =>
      intro cur s e hsorted h
      simp only [findSlotLoop] at h
      rcases List.sorted_cons.mp hsorted with ⟨hall, hrest⟩
      split at h
      · rename_i hgap
        simp only [Option.some.injEq, Prod.mk.injEq] at h
        obtain ⟨hs, he⟩ := h
        subst hs; subst he
        refine ⟨rfl, le_refl _, ?_⟩
        intro j hj
        rcases List.mem_cons.mp hj with hj | hj
        · subst hj; left; omega
        · have hij : i.start ≤ j.start := hall j hj
          left; omega
      · rename_i hgap
        obtain ⟨he, hcur, hrest2⟩ := ih (max cur (i.stop + buf)) s e hrest h
        refine ⟨he, le_trans (le_max_left _ _) hcur, ?_⟩
        intro j hj
        rcases List.mem_cons.mp hj with hj | hj
        · subst hj
          right
          exact le_trans (le_max_right _ _) hcur
        · exact hrest2 j hj

/-- The slot returned by the search loop is minimal: any candidate start at
or after the cursor that clears every busy interval is at or after the
returned start. -/
theorem findSlotLoop_min (req buf eod : Int) :
    ∀ (l : List BusyInterval) (cur s e t : Int),
      findSlotLoop req buf eod cur l = some (s, e) →
      cur ≤ t →
      (∀ i ∈ l, t + req ≤ i.start ∨ i.stop + buf ≤ t) →
      s ≤ t := by
  intro l
  induction l with
  | nil =>
      intro cur s e t h hct _
      simp only [findSlotLoop] at h
      split at h
      · simp only [Option.some.injEq, Prod.mk.injEq] at h
        omega
      · exact absurd h (by simp)
  | cons i rest ih =>
      intro cur s e t h hct hvalid
      simp only [findSlotLoop] at h
      split at h
      · simp only [Option.some.injEq, Prod.mk.injEq] at h
        omega
      · rename_i hgap
        have hit : i.stop + buf ≤ t := by
          rcases hvalid i (List.mem_cons_self i rest) with hc | hc
          · omega
          · exact hc
        refine ih (max cur (i.stop + buf)) s e t h (by omega) ?_
        intro j hj
        exact hvalid j (List.mem_cons_of_mem i hj)

/-- C3.  The claim says a not-done, not-completed, not-skipped session with
originalTime and originalDate set whose plan date is strictly before today is
classified as scheduled (past-date rule applied before the generic
rescheduled rule).  The code tests originalTime/originalDate first
(TaskList.tsx:511-513) and returns rescheduled, so the past-date sub-branch
at TaskList.tsx:517-522 — which would return scheduled and logs that such a
session is not to be marked missed — is unreachable.  At a concrete such
session the classifier returns rescheduled, never scheduled. -/
theorem c3_pastRedistributed_isRescheduled :
    checkSessionStatus 100 600
      { taskId := "t1", startTime := some 480, endTime := some 540,
        allocatedHours := 1, sessionNumber := 1, done := false,
        status := some SStatus.scheduled, originalTime := some 480,
        originalDate := some 95 } 99 = CStatus.rescheduled := by
  decide

/-- C4 counterexample.  The claim asserts every returned slot lies entirely
within the study window.  With window 8:00-10:00 and commitments 8:00-11:00
and 12:00-13:00, a half-hour request returns the slot 11:00-11:30, which
lies entirely after the window's end (10:00 = 600 minutes). -/
theorem c4_counterexample :
    findNextAvailableTimeSlot (1/2) []
      [{ id := "a", startTime := 480, endTime := 660, recurring := true,
         daysOfWeek := [], specificDates := [], deletedOccurrences := [],
         modifiedOccurrences := [] },
       { id := "b", startTime := 720, endTime := 780, recurring := true,
         daysOfWeek := [], specificDates := [], deletedOccurrences := [],
         modifiedOccurrences := [] }] 8 10 0 none = some (660, 690) ∧
      ¬ ((660 : Int) + 30 ≤ 10 * 60) := by
  constructor
  · decide
  · decide

/-- C4 amended.  Whenever findNextAvailableTimeSlot returns a slot, the slot
(a) has exactly the required duration rounded up to whole minutes, (b) starts
at or after the study-window start, (c) clears every busy interval built from
the sessions and applicable commitments — each such interval either begins at
or after the slot's end or ends at least bufferTimeBetweenSessions minutes
before the slot's start (hence no overlap and the buffer is honored) — and
(d) it is the earliest start at or after the window start with that
clearance.  (Containment within the window end is NOT guaranteed; see the
counterexample.) -/
theorem c4_slot_sound_and_earliest (requiredHours : ℚ)
    (sessions : List StudySession) (commitments : List FixedCommitment)
    (ws we buffer : Nat) (targetDate : Option Int) (s e : Int)
    (h : findNextAvailableTimeSlot requiredHours sessions commitments ws we
          buffer targetDate = some (s, e)) :
    e = s + Int.ceil (requiredHours * 60) ∧
    (ws : Int) * 60 ≤ s ∧
    (∀ i ∈ buildBusyIntervals sessions commitments targetDate,
        e ≤ i.start ∨ i.stop + (buffer : Int) ≤ s) ∧
    (∀ t : Int, (ws : Int) * 60 ≤ t →
        (∀ i ∈ buildBusyIntervals sessions commitments targetDate,
            t + Int.ceil (requiredHours * 60) ≤ i.start ∨
              i.stop + (buffer : Int) ≤ t) →
        s ≤ t) := by
  unfold findNextAvailableTimeSlot at h
  set busy := buildBusyIntervals sessions commitments targetDate with hbusy
  set req : Int := Int.ceil (requiredHours * 60) with hreq
  have hsorted : (busy.insertionSort startLE).Sorted startLE :=
    List.sorted_insertionSort startLE busy
  have hmem : ∀ i : BusyInterval, i ∈ busy.insertionSort startLE ↔ i ∈ busy :=
    fun i => (List.perm_insertionSort startLE busy).mem_iff
  obtain ⟨he, hcur, hclear⟩ :=
    findSlotLoop_sound req (buffer : Int) ((we : Int) * 60)
      (busy.insertionSort startLE) ((ws : Int) * 60) s e hsorted h
  refine ⟨he, hcur, ?_, ?_⟩
  · intro i hi
    rcases hclear i ((hmem i).mpr hi) with hc | hc
    · left; omega
    · right; exact hc
  · intro t ht hvalid
    refine findSlotLoop_min req (buffer : Int) ((we : Int) * 60)
      (busy.insertionSort startLE) ((ws : Int) * 60) s e t h ht ?_
    intro i hi
    exact hvalid i ((hmem i).mp hi)

/-- Witness for the C4 amended theorem at a concrete input: a one-hour
request against a single 8:00-9:00 commitment in window 8-23 with a
10-minute buffer returns a slot, and the theorem's conclusions hold there. -/
theorem c4_witness :
    (findNextAvailableTimeSlot 1 []
        [{ id := "a", startTime := 480, endTime := 540, recurring := true,
           daysOfWeek := [], specificDates := [], deletedOccurrences := [],
           modifiedOccurrences := [] }] 8 23 10 none = some (550, 610)) ∧
      (610 : Int) = 550 + Int.ceil ((1 : ℚ) * 60) := by
  have h : findNextAvailableTimeSlot 1 []
      [{ id := "a", startTime := 480, endTime := 540, recurring := true,
         daysOfWeek := [], specificDates := [], deletedOccurrences := [],
         modifiedOccurrences := [] }] 8 23 10 none = some (550, 610) := by decide
  have h2 := c4_slot_sound_and_earliest 1 []
      [{ id := "a", startTime := 480, endTime := 540, recurring := true,
         daysOfWeek := [], specificDates := [], deletedOccurrences := [],
         modifiedOccurrences := [] }] 8 23 10 none 550 610 h
  exact ⟨h, h2.1⟩

/-- C7 counterexample.  A commitment 9:00-10:00 overridden on date 5 with
startTime 9:30 AND endTime 10:30 resolves to the busy interval
9:30-10:00 — the base endTime, not the modified one — refuting the claim
that both override fields are taken. -/
theorem c7_counterexample :
    commitmentInterval
      { id := "c", startTime := 540, endTime := 600, recurring := true,
        daysOfWeek := [], specificDates := [], deletedOccurrences := [],
        modifiedOccurrences := [(5, { startTime := some 570, endTime := some 630 })] }
      (some 5) = { start := 570, stop := 600 } ∧
      ({ start := 570, stop := 600 } : BusyInterval) ≠ { start := 570, stop := 630 } := by
  constructor
  · rfl
  · decide

/-- C7 amended.  When a commitment has a modifiedOccurrences entry for the
target date (and the occurrence is not deleted), the busy interval the slot
finder builds takes a specified override startTime paired with the BASE
endTime; only when the override omits startTime does a specified endTime
apply, paired with the base startTime; with neither field the base interval
is used.  In particular, when both fields are specified the resolved interval
is [modified startTime, base endTime]. -/
theorem c7_override_semantics (c : FixedCommitment) (d : Int)
    (m : ModifiedOccurrence)
    (hdel : ¬ d ∈ c.deletedOccurrences)
    (hm : (c.modifiedOccurrences.find? fun p => p.1 == d).map Prod.snd = some m) :
    buildBusyIntervals [] [c] (some d) =
      [match m.startTime with
       | some ms => { start := (ms : Int), stop := (c.endTime : Int) }
       | none =>
           match m.endTime with
           | some me => { start := (c.startTime : Int), stop := (me : Int) }
           | none => { start := (c.startTime : Int), stop := (c.endTime : Int) }] := by
  unfold buildBusyIntervals activeCommitments commitmentInterval
  simp [hdel, hm]

/-- Witness for the C7 amended theorem: at a concrete commitment with both
override fields specified, the busy-interval list is the modified start
paired with the base end. -/
theorem c7_witness :
    buildBusyIntervals []
      [{ id := "c", startTime := 540, endTime := 600, recurring := true,
         daysOfWeek := [], specificDates := [], deletedOccurrences := [],
         modifiedOccurrences := [(5, { startTime := some 570, endTime := some 630 })] }]
      (some 5) = [{ start := 570, stop := 600 }] := by
  have h := c7_override_semantics
    { id := "c", startTime := 540, endTime := 600, recurring := true,
      daysOfWeek := [], specificDates := [], deletedOccurrences := [],
      modifiedOccurrences := [(5, { startTime := some 570, endTime := some 630 })] }
    5 { startTime := some 570, endTime := some 630 } (by decide) (by rfl)
  simpa using h

/-- Folding the allocated-hours accumulator from an arbitrary seed. -/
theorem sumAlloc_foldl (l : List StudySession) :
    ∀ a : ℚ, l.foldl (fun sum s => sum + s.allocatedHours) a
      = a + (l.map fun s => s.allocatedHours).sum := by
  induction l with
  | nil => intro a; simp
  | cons s rest ih => intro a; simp [ih, add_assoc]

/-- sumAlloc as a mapped sum. -/
theorem sumAlloc_eq_sum (l : List StudySession) :
    sumAlloc l = (l.map fun s => s.allocatedHours).sum := by
  simp [sumAlloc, sumAlloc_foldl]

/-- Sorting does not change the session-hours sum. -/
theorem sumAlloc_insertionSort (l : List StudySession) :
    sumAlloc (l.insertionSort sessLE) = sumAlloc l := by
  rw [sumAlloc_eq_sum, sumAlloc_eq_sum]
  exact List.Perm.sum_eq ((List.perm_insertionSort sessLE l).map _)

/-- Keys after one addToGroups step. -/
theorem keys_addToGroups (acc : List (String × List StudySession))
    (s : StudySession) :
    (addToGroups acc s).map Prod.fst =
      if s.taskId ∈ acc.map Prod.fst then acc.map Prod.fst
      else acc.map Prod.fst ++ [s.taskId] := by
  induction acc with
  | nil => simp [addToGroups]
  | cons p rest ih =>
      obtain ⟨k, g⟩ := p
      by_cases hk : k = s.taskId
      · subst hk
        simp [addToGroups]
      · have hk2 : ¬ s.taskId = k := fun e => hk e.symm
        simp only [addToGroups, if_neg hk, List.map_cons, ih, List.mem_cons, hk2,
          false_or]
        split <;> simp

/-- Adding a session whose key is absent appends a fresh singleton group. -/
theorem addToGroups_of_not_mem (acc : List (String × List StudySession))
    (s : StudySession) (h : s.taskId ∉ acc.map Prod.fst) :
    addToGroups acc s = acc ++ [(s.taskId, [s])] := by
  induction acc with
  | nil => rfl
  | cons p rest ih =>
      obtain ⟨k, g⟩ := p
      simp only [List.map_cons, List.mem_cons] at h
      push_neg at h
      have hk : ¬ k = s.taskId := fun e => h.1 e.symm
      simp [addToGroups, hk, ih h.2]

/-- Adding a session whose key is held only by the final group extends it. -/
theorem addToGroups_last (pre : List (String × List StudySession)) (k : String)
    (g : List StudySession) (s : StudySession) (hs : s.taskId = k)
    (h : k ∉ pre.map Prod.fst) :
    addToGroups (pre ++ [(k, g)]) s = pre ++ [(k, g ++ [s])] := by
  induction pre with
  | nil => simp [addToGroups, hs]
  | cons p rest ih =>
      obtain ⟨k2, g2⟩ := p
      simp only [List.map_cons, List.mem_cons] at h
      push_neg at h
      have hk2 : ¬ k2 = s.taskId := by
        rw [hs]; exact fun e => h.1 e.symm
      simp [addToGroups, hk2, List.cons_append, ih h.2]

/-- Folding a uniform-key block onto a state ending in that key's group
extends the final group by the whole block. -/
theorem foldl_block_ext (B : List StudySession) :
    ∀ (pre : List (String × List StudySession)) (k : String)
      (g : List StudySession), (∀ s ∈ B, s.taskId = k) →
      k ∉ pre.map Prod.fst →
      B.foldl addToGroups (pre ++ [(k, g)]) = pre ++ [(k, g ++ B)] := by
  induction B with
  | nil => intro pre k g _ _; simp
  | cons s B ih =>
      intro pre k g hB hpre
      have hs : s.taskId = k := hB s (by simp)
      rw [List.foldl_cons, addToGroups_last pre k g s hs hpre,
        ih pre k (g ++ [s]) (fun x hx => hB x (by simp [hx])) hpre]
      simp

/-- Folding a nonempty uniform-key block with a fresh key appends one group
holding exactly the block. -/
theorem foldl_block (B : List StudySession)
    (acc : List (String × List StudySession)) (k : String) (hne : B ≠ [])
    (hB : ∀ s ∈ B, s.taskId = k) (hacc : k ∉ acc.map Prod.fst) :
    B.foldl addToGroups acc = acc ++ [(k, B)] := by
  match B, hne with
  | s :: B, _ =>
    have hs : s.taskId = k := hB s (by simp)
    rw [List.foldl_cons, addToGroups_of_not_mem acc s (by rw [hs]; exact hacc),
      hs, foldl_block_ext B acc k [s] (fun x hx => hB x (by simp [hx])) hacc]
    simp

/-- Folding a flattened list of nonempty uniform-key blocks with pairwise
distinct keys, all fresh for the accumulator, appends exactly those blocks. -/
theorem foldl_blocks (blocks : List (String × List StudySession)) :
    ∀ acc : List (String × List StudySession),
      (∀ b ∈ blocks, b.2 ≠ [] ∧ ∀ s ∈ b.2, s.taskId = b.1) →
      (blocks.map Prod.fst).Nodup →
      (∀ x ∈ blocks.map Prod.fst, x ∉ acc.map Prod.fst) →
      ((blocks.map Prod.snd).flatten).foldl addToGroups acc = acc ++ blocks := by
  induction blocks with
  | nil => intro acc _ _ _; simp
  | cons b rest ih =>
      intro acc hb hnd hdisj
      obtain ⟨k, B⟩ := b
      obtain ⟨⟨hne, hkey⟩, hrest⟩ := List.forall_mem_cons.mp hb
      simp only [List.map_cons] at hnd
      have hndc := List.nodup_cons.mp hnd
      simp only [List.map_cons, List.flatten_cons]
      rw [List.foldl_append, foldl_block B acc k hne hkey (hdisj k (by simp))]
      rw [ih (acc ++ [(k, B)]) hrest hndc.2 ?_]
      · simp
      · intro x hx
        simp only [List.map_append, List.mem_append, List.map_cons,
          List.map_nil, List.mem_singleton]
        push_neg
        refine ⟨hdisj x (by simp [hx]), ?_⟩
        intro he
        exact hndc.1 (he ▸ hx)

/-- lookupGroup after one addToGroups step. -/
theorem lookupGroup_addToGroups (acc : List (String × List StudySession))
    (s : StudySession) (tid : String) :
    lookupGroup (addToGroups acc s) tid =
      if s.taskId = tid then lookupGroup acc tid ++ [s]
      else lookupGroup acc tid := by
  induction acc with
  | nil =>
      by_cases h : s.taskId = tid <;> simp [addToGroups, lookupGroup, h]
  | cons p rest ih =>
      obtain ⟨k, g⟩ := p
      by_cases hk : k = s.taskId
      · by_cases ht : k = tid
        · have hst : s.taskId = tid := hk.symm.trans ht
          simp [addToGroups, lookupGroup, hk, ht, hst]
        · have hst : ¬ s.taskId = tid := fun e => ht (hk.trans e)
          simp [addToGroups, lookupGroup, hk, ht, hst]
      · by_cases ht : k = tid
        · have hst : ¬ s.taskId = tid := fun e => hk (ht.trans e.symm)
          have htid : ¬ tid = s.taskId := fun e => hk (ht.trans e)
          simp [addToGroups, lookupGroup, hk, ht, hst, htid]
        · simp [addToGroups, lookupGroup, hk, ht, ih]

/-- lookupGroup after folding a whole list: the stored group grows by the
sessions of that task, in order. -/
theorem lookupGroup_foldl (l : List StudySession) :
    ∀ (acc : List (String × List StudySession)) (tid : String),
      lookupGroup (l.foldl addToGroups acc) tid
        = lookupGroup acc tid ++ l.filter fun s => s.taskId == tid := by
  induction l with
  | nil => intro acc tid; simp
  | cons s rest ih =>
      intro acc tid
      rw [List.foldl_cons, ih, lookupGroup_addToGroups]
      by_cases h : s.taskId = tid
      · simp [List.filter_cons, h]
      · simp [List.filter_cons, h]

/-- The group groupByTask stores for a task id is exactly the non-skipped
sessions of that task, in order. -/
theorem lookupGroup_groupByTask (l : List StudySession) (tid : String) :
    lookupGroup (groupByTask l) tid
      = (l.filter nonSkipped).filter fun s => s.taskId == tid := by
  unfold groupByTask
  rw [lookupGroup_foldl]
  simp [lookupGroup]

/-- addToGroups preserves key nodup-ness. -/
theorem addToGroups_nodup (acc : List (String × List StudySession))
    (s : StudySession) (h : (acc.map Prod.fst).Nodup) :
    ((addToGroups acc s).map Prod.fst).Nodup := by
  rw [keys_addToGroups]
  split
  · exact h
  · rename_i hmem
    exact List.Nodup.append h (List.nodup_singleton _) (by simpa using hmem)

/-- addToGroups preserves nonemptiness and key-uniformity of groups. -/
theorem addToGroups_uniform (acc : List (String × List StudySession))
    (s : StudySession)
    (h : ∀ p ∈ acc, p.2 ≠ [] ∧ ∀ x ∈ p.2, x.taskId = p.1) :
    ∀ p ∈ addToGroups acc s, p.2 ≠ [] ∧ ∀ x ∈ p.2, x.taskId = p.1 := by
  induction acc with
  | nil =>
      intro p hp
      simp only [addToGroups, List.mem_singleton] at hp
      subst hp
      exact ⟨by simp, by simp⟩
  | cons q rest ih =>
      obtain ⟨k, g⟩ := q
      obtain ⟨⟨hne, hkey⟩, hrest⟩ := List.forall_mem_cons.mp h
      intro p hp
      by_cases hk : k = s.taskId
      · rw [show addToGroups ((k, g) :: rest) s = (k, g ++ [s]) :: rest by
            simp [addToGroups, hk]] at hp
        rcases List.mem_cons.mp hp with hp | hp
        · subst hp
          refine ⟨by simp, ?_⟩
          intro x hx
          rcases List.mem_append.mp hx with hx | hx
          · exact hkey x hx
          · simp only [List.mem_singleton] at hx
            subst hx; exact hk.symm
        · exact hrest p hp
      · rw [show addToGroups ((k, g) :: rest) s = (k, g) :: addToGroups rest s by
            simp [addToGroups, hk]] at hp
        rcases List.mem_cons.mp hp with hp | hp
        · subst hp; exact ⟨hne, hkey⟩
        · exact ih hrest p hp

/-- Sessions inside addToGroups output come from the accumulator or are the
added session. -/
theorem addToGroups_mem (acc : List (String × List StudySession))
    (s : StudySession) :
    ∀ p ∈ addToGroups acc s, ∀ x ∈ p.2,
      (∃ q ∈ acc, x ∈ q.2) ∨ x = s := by
  induction acc with
  | nil =>
      intro p hp x hx
      simp only [addToGroups, List.mem_singleton] at hp
      subst hp
      simp only [List.mem_singleton] at hx
      exact Or.inr hx
  | cons q rest ih =>
      obtain ⟨k, g⟩ := q
      intro p hp x hx
      by_cases hk : k = s.taskId
      · rw [show addToGroups ((k, g) :: rest) s = (k, g ++ [s]) :: rest by
            simp [addToGroups, hk]] at hp
        rcases List.mem_cons.mp hp with hp | hp
        · subst hp
          rcases List.mem_append.mp hx with hx2 | hx2
          · exact Or.inl ⟨(k, g), by simp, hx2⟩
          · simp only [List.mem_singleton] at hx2
            exact Or.inr hx2
        · exact Or.inl ⟨p, by simp [hp], hx⟩
      · rw [show addToGroups ((k, g) :: rest) s = (k, g) :: addToGroups rest s by
            simp [addToGroups, hk]] at hp
        rcases List.mem_cons.mp hp with hp | hp
        · subst hp
          exact Or.inl ⟨(k, g), by simp, hx⟩
        · rcases ih p hp x hx with ⟨q2, hq2, hxq⟩ | he
          · exact Or.inl ⟨q2, by simp [hq2], hxq⟩
          · exact Or.inr he

/-- groupByTask's keys are pairwise distinct. -/
theorem groupByTask_nodupKeys (l : List StudySession) :
    ((groupByTask l).map Prod.fst).Nodup := by
  unfold groupByTask
  generalize l.filter nonSkipped = m
  have aux : ∀ (m : List StudySession) (acc : List (String × List StudySession)),
      (acc.map Prod.fst).Nodup → ((m.foldl addToGroups acc).map Prod.fst).Nodup := by
    intro m
    induction m with
    | nil => intro acc h; simpa using h
    | cons s rest ih =>
        intro acc h
        exact ih (addToGroups acc s) (addToGroups_nodup acc s h)
  exact aux m [] (by simp)

/-- groupByTask's groups are nonempty and key-uniform. -/
theorem groupByTask_uniform (l : List StudySession) :
    ∀ p ∈ groupByTask l, p.2 ≠ [] ∧ ∀ x ∈ p.2, x.taskId = p.1 := by
  unfold groupByTask
  generalize l.filter nonSkipped = m
  have aux : ∀ (m : List StudySession) (acc : List (String × List StudySession)),
      (∀ p ∈ acc, p.2 ≠ [] ∧ ∀ x ∈ p.2, x.taskId = p.1) →
      ∀ p ∈ m.foldl addToGroups acc, p.2 ≠ [] ∧ ∀ x ∈ p.2, x.taskId = p.1 := by
    intro m
    induction m with
    | nil => intro acc h; simpa using h
    | cons s rest ih =>
        intro acc h
        exact ih (addToGroups acc s) (addToGroups_uniform acc s h)
  exact aux m [] (by simp)

/-- Sessions in groupByTask's groups come from the non-skipped input. -/
theorem groupByTask_mem (l : List StudySession) :
    ∀ p ∈ groupByTask l, ∀ x ∈ p.2, x ∈ l.filter nonSkipped := by
  unfold groupByTask
  generalize l.filter nonSkipped = m
  have aux : ∀ (m : List StudySession) (acc : List (String × List StudySession)),
      ∀ p ∈ m.foldl addToGroups acc, ∀ x ∈ p.2,
        (∃ q ∈ acc, x ∈ q.2) ∨ x ∈ m := by
    intro m
    induction m with
    | nil => intro acc p hp x hx; exact Or.inl ⟨p, hp, hx⟩
    | cons s rest ih =>
        intro acc p hp x hx
        rcases ih (addToGroups acc s) p hp x hx with ⟨q, hq, hxq⟩ | hm
        · rcases addToGroups_mem acc s q hq x hxq with ⟨q2, hq2, hxq2⟩ | he
          · exact Or.inl ⟨q2, hq2, hxq2⟩
          · exact Or.inr (by simp [he])
        · exact Or.inr (by simp [hm])
  intro p hp x hx
  rcases aux m [] p hp x hx with ⟨q, hq, _⟩ | hm
  · simp at hq
  · exact hm

/-- The sorted version of a group with more than one session is nonempty. -/
theorem insertionSort_cons_of_long (g : List StudySession) (h : g.length > 1) :
    ∃ first rest, g.insertionSort sessLE = first :: rest := by
  rcases heq : g.insertionSort sessLE with _ | ⟨f, r⟩
  · exfalso
    have hl := List.length_insertionSort sessLE g
    rw [heq] at hl
    simp at hl
    omega
  · exact ⟨f, r, rfl⟩

/-- combineGroup outputs at most one session. -/
theorem combineGroup_length_le (g : List StudySession) :
    (combineGroup g).length ≤ 1 := by
  by_cases hlen : g.length > 1
  · obtain ⟨f, r, heq⟩ := insertionSort_cons_of_long g hlen
    unfold combineGroup
    rw [if_pos hlen, heq]
    simp
  · unfold combineGroup
    rw [if_neg hlen]
    omega

/-- combineGroup of a list of length at most one is the identity. -/
theorem combineGroup_short (g : List StudySession) (h : g.length ≤ 1) :
    combineGroup g = g := by
  unfold combineGroup
  rw [if_neg (by omega)]

/-- combineGroup is idempotent on groups. -/
theorem combineGroup_idem (g : List StudySession) :
    combineGroup (combineGroup g) = combineGroup g :=
  combineGroup_short _ (combineGroup_length_le g)

/-- combineGroup keeps a nonempty group nonempty. -/
theorem combineGroup_ne_nil (g : List StudySession) (h : g ≠ []) :
    combineGroup g ≠ [] := by
  by_cases hlen : g.length > 1
  · obtain ⟨f, r, heq⟩ := insertionSort_cons_of_long g hlen
    unfold combineGroup
    rw [if_pos hlen, heq]
    simp
  · unfold combineGroup
    rw [if_neg hlen]
    exact h

/-- combineGroup keeps the group's task id on every output session. -/
theorem combineGroup_taskId (g : List StudySession) (k : String)
    (hg : ∀ x ∈ g, x.taskId = k) : ∀ x ∈ combineGroup g, x.taskId = k := by
  by_cases hlen : g.length > 1
  · obtain ⟨f, r, heq⟩ := insertionSort_cons_of_long g hlen
    unfold combineGroup
    rw [if_pos hlen, heq]
    intro x hx
    simp only [List.mem_singleton] at hx
    subst hx
    exact hg f ((List.mem_insertionSort sessLE).mp (by rw [heq]; simp))
  · unfold combineGroup
    rw [if_neg hlen]
    exact hg

/-- combineGroup keeps non-skipped-ness on every output session. -/
theorem combineGroup_nonSkipped (g : List StudySession)
    (hg : ∀ x ∈ g, nonSkipped x = true) :
    ∀ x ∈ combineGroup g, nonSkipped x = true := by
  by_cases hlen : g.length > 1
  · obtain ⟨f, r, heq⟩ := insertionSort_cons_of_long g hlen
    unfold combineGroup
    rw [if_pos hlen, heq]
    intro x hx
    simp only [List.mem_singleton] at hx
    subst hx
    exact hg f ((List.mem_insertionSort sessLE).mp (by rw [heq]; simp))
  · unfold combineGroup
    rw [if_neg hlen]
    exact hg

/-- combineGroup conserves the group's summed allocated hours. -/
theorem combineGroup_sum (g : List StudySession) :
    sumAlloc (combineGroup g) = sumAlloc g := by
  by_cases hlen : g.length > 1
  · obtain ⟨f, r, heq⟩ := insertionSort_cons_of_long g hlen
    unfold combineGroup
    rw [if_pos hlen, heq]
    have h1 : sumAlloc (f :: r) = sumAlloc g := by
      rw [← heq]
      exact sumAlloc_insertionSort g
    simp only [sumAlloc_eq_sum, List.map_cons, List.map_nil, List.sum_cons,
      List.sum_nil, add_zero] at h1 ⊢
    exact h1
  · unfold combineGroup
    rw [if_neg hlen]

/-- combineGroupWithValidation of a list of length at most one is the
identity. -/
theorem combineGroupWithValidation_short (mn mx : ℚ) (g : List StudySession)
    (h : g.length ≤ 1) : combineGroupWithValidation mn mx g = g := by
  unfold combineGroupWithValidation
  rw [if_neg (by omega)]

/-- The two shapes of combineGroupWithValidation output: a merge (at most
one session) or the rejected, sorted original group. -/
theorem combineGroupWithValidation_out (mn mx : ℚ) (g : List StudySession) :
    (combineGroupWithValidation mn mx g).length ≤ 1 ∨
    (combineGroupWithValidation mn mx g = g.insertionSort sessLE ∧
      g.length > 1 ∧
      ¬(mn ≤ sumAlloc (g.insertionSort sessLE) ∧
        sumAlloc (g.insertionSort sessLE) ≤ mx)) := by
  by_cases hlen : g.length > 1
  · by_cases hcond : mn ≤ sumAlloc (g.insertionSort sessLE) ∧
        sumAlloc (g.insertionSort sessLE) ≤ mx
    · obtain ⟨f, r, heq⟩ := insertionSort_cons_of_long g hlen
      left
      unfold combineGroupWithValidation
      rw [if_pos hlen, if_pos hcond, heq]
      simp
    · right
      unfold combineGroupWithValidation
      rw [if_pos hlen, if_neg hcond]
      exact ⟨rfl, hlen, hcond⟩
  · left
    unfold combineGroupWithValidation
    rw [if_neg hlen]
    omega

/-- combineGroupWithValidation is idempotent on groups. -/
theorem combineGroupWithValidation_idem (mn mx : ℚ) (g : List StudySession) :
    combineGroupWithValidation mn mx (combineGroupWithValidation mn mx g)
      = combineGroupWithValidation mn mx g := by
  rcases combineGroupWithValidation_out mn mx g with h | ⟨hout, hlen, hcond⟩
  · exact combineGroupWithValidation_short mn mx _ h
  · rw [hout]
    have hsorted : (g.insertionSort sessLE).Sorted sessLE :=
      List.sorted_insertionSort sessLE g
    have hlen2 : (g.insertionSort sessLE).length > 1 := by
      rw [List.length_insertionSort]
      exact hlen
    unfold combineGroupWithValidation
    rw [if_pos hlen2, hsorted.insertionSort_eq, if_neg hcond]

/-- combineGroupWithValidation keeps a nonempty group nonempty. -/
theorem combineGroupWithValidation_ne_nil (mn mx : ℚ) (g : List StudySession)
    (h : g ≠ []) : combineGroupWithValidation mn mx g ≠ [] := by
  by_cases hlen : g.length > 1
  · by_cases hcond : mn ≤ sumAlloc (g.insertionSort sessLE) ∧
        sumAlloc (g.insertionSort sessLE) ≤ mx
    · obtain ⟨f, r, heq⟩ := insertionSort_cons_of_long g hlen
      unfold combineGroupWithValidation
      rw [if_pos hlen, if_pos hcond, heq]
      simp
    · obtain ⟨f, r, heq⟩ := insertionSort_cons_of_long g hlen
      unfold combineGroupWithValidation
      rw [if_pos hlen, if_neg hcond, heq]
      simp
  · unfold combineGroupWithValidation
    rw [if_neg hlen]
    exact h

/-- combineGroupWithValidation keeps the group's task id. -/
theorem combineGroupWithValidation_taskId (mn mx : ℚ) (g : List StudySession)
    (k : String) (hg : ∀ x ∈ g, x.taskId = k) :
    ∀ x ∈ combineGroupWithValidation mn mx g, x.taskId = k := by
  by_cases hlen : g.length > 1
  · by_cases hcond : mn ≤ sumAlloc (g.insertionSort sessLE) ∧
        sumAlloc (g.insertionSort sessLE) ≤ mx
    · obtain ⟨f, r, heq⟩ := insertionSort_cons_of_long g hlen
      unfold combineGroupWithValidation
      rw [if_pos hlen, if_pos hcond, heq]
      intro x hx
      simp only [List.mem_singleton] at hx
      subst hx
      exact hg f ((List.mem_insertionSort sessLE).mp (by rw [heq]; simp))
    · unfold combineGroupWithValidation
      rw [if_pos hlen, if_neg hcond]
      intro x hx
      exact hg x ((List.mem_insertionSort sessLE).mp hx)
  · unfold combineGroupWithValidation
    rw [if_neg hlen]
    exact hg

/-- combineGroupWithValidation keeps non-skipped-ness. -/
theorem combineGroupWithValidation_nonSkipped (mn mx : ℚ)
    (g : List StudySession) (hg : ∀ x ∈ g, nonSkipped x = true) :
    ∀ x ∈ combineGroupWithValidation mn mx g, nonSkipped x = true := by
  by_cases hlen : g.length > 1
  · by_cases hcond : mn ≤ sumAlloc (g.insertionSort sessLE) ∧
        sumAlloc (g.insertionSort sessLE) ≤ mx
    · obtain ⟨f, r, heq⟩ := insertionSort_cons_of_long g hlen
      unfold combineGroupWithValidation
      rw [if_pos hlen, if_pos hcond, heq]
      intro x hx
      simp only [List.mem_singleton] at hx
      subst hx
      exact hg f ((List.mem_insertionSort sessLE).mp (by rw [heq]; simp))
    · unfold combineGroupWithValidation
      rw [if_pos hlen, if_neg hcond]
      intro x hx
      exact hg x ((List.mem_insertionSort sessLE).mp hx)
  · unfold combineGroupWithValidation
    rw [if_neg hlen]
    exact hg

/-- All sessions in the combined (non-skipped) part of combinePlan's output
are non-skipped. -/
theorem combinePlan_combined_nonSkipped (l : List StudySession) :
    ∀ x ∈ ((groupByTask l).map fun g => combineGroup g.2).flatten,
      nonSkipped x = true := by
  intro x hx
  rw [List.mem_flatten] at hx
  obtain ⟨m, hm, hxm⟩ := hx
  rw [List.mem_map] at hm
  obtain ⟨gr, hgr, rfl⟩ := hm
  refine combineGroup_nonSkipped gr.2 ?_ x hxm
  intro y hy
  exact (List.mem_filter.mp (groupByTask_mem l gr hgr y hy)).2

/-- The key structure of the plain combine output as blocks. -/
theorem combinePlan_blocks (l : List StudySession) :
    (∀ b ∈ (groupByTask l).map fun g => (g.1, combineGroup g.2),
        b.2 ≠ [] ∧ ∀ s ∈ b.2, s.taskId = b.1) ∧
    (((groupByTask l).map fun g => (g.1, combineGroup g.2)).map Prod.fst).Nodup := by
  constructor
  · intro b hb
    rw [List.mem_map] at hb
    obtain ⟨gr, hgr, rfl⟩ := hb
    obtain ⟨hne, huni⟩ := groupByTask_uniform l gr hgr
    exact ⟨combineGroup_ne_nil gr.2 hne, combineGroup_taskId gr.2 gr.1 huni⟩
  · rw [List.map_map]
    have : (Prod.fst ∘ fun g : String × List StudySession =>
        (g.1, combineGroup g.2)) = Prod.fst := by
      funext g; rfl
    rw [this]
    exact groupByTask_nodupKeys l

/-- Regrouping the plain combine output recovers exactly its blocks. -/
theorem groupByTask_combinePlan (l : List StudySession) :
    groupByTask ((((groupByTask l).map fun g => combineGroup g.2).flatten)
        ++ l.filter fun s => s.status == some SStatus.skipped)
      = (groupByTask l).map fun g => (g.1, combineGroup g.2) := by
  obtain ⟨hblocks, hkeys⟩ := combinePlan_blocks l
  rw [groupByTask, List.filter_append]
  have hfc : (((groupByTask l).map fun g => combineGroup g.2).flatten).filter
      nonSkipped = ((groupByTask l).map fun g => combineGroup g.2).flatten :=
    List.filter_eq_self.mpr (combinePlan_combined_nonSkipped l)
  have hfs : (l.filter fun s => s.status == some SStatus.skipped).filter
      nonSkipped = [] := by
    rw [List.filter_eq_nil_iff]
    intro a ha
    have h2 := (List.mem_filter.mp ha).2
    simp [nonSkipped, h2]
  rw [hfc, hfs, List.append_nil]
  have hCrw : ((groupByTask l).map fun g => combineGroup g.2)
      = ((groupByTask l).map fun g => (g.1, combineGroup g.2)).map Prod.snd := by
    rw [List.map_map]
    rfl
  rw [hCrw, foldl_blocks _ [] hblocks hkeys (by simp)]
  simp

/-- combinePlan is idempotent. -/
theorem combinePlan_idem (p : StudyPlan) :
    combinePlan (combinePlan p) = combinePlan p := by
  have hpt : (combinePlan p).plannedTasks =
      (((groupByTask p.plannedTasks).map fun g => combineGroup g.2).flatten)
        ++ p.plannedTasks.filter fun s => s.status == some SStatus.skipped := rfl
  have hskip : ((combinePlan p).plannedTasks.filter
      fun s => s.status == some SStatus.skipped)
      = p.plannedTasks.filter fun s => s.status == some SStatus.skipped := by
    rw [hpt, List.filter_append]
    have h1 : ((((groupByTask p.plannedTasks).map fun g =>
        combineGroup g.2).flatten).filter
          fun s => s.status == some SStatus.skipped) = [] := by
      rw [List.filter_eq_nil_iff]
      intro a ha
      have := combinePlan_combined_nonSkipped p.plannedTasks a ha
      simp only [nonSkipped] at this
      simpa using this
    have h2 : ((p.plannedTasks.filter fun s =>
        s.status == some SStatus.skipped).filter
          fun s => s.status == some SStatus.skipped)
        = p.plannedTasks.filter fun s => s.status == some SStatus.skipped := by
      rw [List.filter_eq_self]
      intro a ha
      exact (List.mem_filter.mp ha).2
    rw [h1, h2, List.nil_append]
  have hgroups : groupByTask (combinePlan p).plannedTasks
      = (groupByTask p.plannedTasks).map fun g => (g.1, combineGroup g.2) := by
    rw [hpt]
    exact groupByTask_combinePlan p.plannedTasks
  have hcomb : ((groupByTask (combinePlan p).plannedTasks).map
      fun g => combineGroup g.2).flatten
      = ((groupByTask p.plannedTasks).map fun g => combineGroup g.2).flatten := by
    rw [hgroups, List.map_map]
    refine congrArg List.flatten (List.map_congr_left ?_)
    intro gr _
    exact combineGroup_idem gr.2
  have hpt2 : (combinePlan (combinePlan p)).plannedTasks
      = (combinePlan p).plannedTasks := by
    rw [show (combinePlan (combinePlan p)).plannedTasks =
        (((groupByTask (combinePlan p).plannedTasks).map
          fun g => combineGroup g.2).flatten)
          ++ (combinePlan p).plannedTasks.filter
            (fun s => s.status == some SStatus.skipped) from rfl]
    rw [hcomb, hskip, hpt]
  ext
  · rfl
  · rfl
  · rw [hpt2]
  · show calculateTotalStudyHours (combinePlan (combinePlan p)).plannedTasks
      = calculateTotalStudyHours (combinePlan p).plannedTasks
    rw [hpt2]
  · rfl

/-- All sessions in combinePlanWithValidation's output are non-skipped. -/
theorem combinePlanV_combined_nonSkipped (mn mx : ℚ) (l : List StudySession) :
    ∀ x ∈ ((groupByTask l).map fun g =>
        combineGroupWithValidation mn mx g.2).flatten,
      nonSkipped x = true := by
  intro x hx
  rw [List.mem_flatten] at hx
  obtain ⟨m, hm, hxm⟩ := hx
  rw [List.mem_map] at hm
  obtain ⟨gr, hgr, rfl⟩ := hm
  refine combineGroupWithValidation_nonSkipped mn mx gr.2 ?_ x hxm
  intro y hy
  exact (List.mem_filter.mp (groupByTask_mem l gr hgr y hy)).2

/-- Regrouping the validated combine output recovers exactly its blocks. -/
theorem groupByTask_combinePlanV (mn mx : ℚ) (l : List StudySession) :
    groupByTask (((groupByTask l).map fun g =>
        combineGroupWithValidation mn mx g.2).flatten)
      = (groupByTask l).map fun g =>
          (g.1, combineGroupWithValidation mn mx g.2) := by
  have hblocks : ∀ b ∈ (groupByTask l).map fun g =>
      (g.1, combineGroupWithValidation mn mx g.2),
      b.2 ≠ [] ∧ ∀ s ∈ b.2, s.taskId = b.1 := by
    intro b hb
    rw [List.mem_map] at hb
    obtain ⟨gr, hgr, rfl⟩ := hb
    obtain ⟨hne, huni⟩ := groupByTask_uniform l gr hgr
    exact ⟨combineGroupWithValidation_ne_nil mn mx gr.2 hne,
      combineGroupWithValidation_taskId mn mx gr.2 gr.1 huni⟩
  have hkeys : (((groupByTask l).map fun g =>
      (g.1, combineGroupWithValidation mn mx g.2)).map Prod.fst).Nodup := by
    rw [List.map_map]
    have : (Prod.fst ∘ fun g : String × List StudySession =>
        (g.1, combineGroupWithValidation mn mx g.2)) = Prod.fst := by
      funext g; rfl
    rw [this]
    exact groupByTask_nodupKeys l
  rw [groupByTask]
  have hfc : ((((groupByTask l).map fun g =>
      combineGroupWithValidation mn mx g.2).flatten).filter nonSkipped)
      = ((groupByTask l).map fun g =>
          combineGroupWithValidation mn mx g.2).flatten :=
    List.filter_eq_self.mpr (combinePlanV_combined_nonSkipped mn mx l)
  rw [hfc]
  have hCrw : ((groupByTask l).map fun g => combineGroupWithValidation mn mx g.2)
      = ((groupByTask l).map fun g =>
          (g.1, combineGroupWithValidation mn mx g.2)).map Prod.snd := by
    rw [List.map_map]
    rfl
  rw [hCrw, foldl_blocks _ [] hblocks hkeys (by simp)]
  simp

/-- combinePlanWithValidation is idempotent. -/
theorem combinePlanWithValidation_idem (mn mx : ℚ) (p : StudyPlan) :
    combinePlanWithValidation mn mx (combinePlanWithValidation mn mx p)
      = combinePlanWithValidation mn mx p := by
  have hpt : (combinePlanWithValidation mn mx p).plannedTasks =
      ((groupByTask p.plannedTasks).map fun g =>
        combineGroupWithValidation mn mx g.2).flatten := rfl
  have hcomb : ((groupByTask (combinePlanWithValidation mn mx p).plannedTasks).map
      fun g => combineGroupWithValidation mn mx g.2).flatten
      = ((groupByTask p.plannedTasks).map fun g =>
          combineGroupWithValidation mn mx g.2).flatten := by
    rw [hpt, groupByTask_combinePlanV, List.map_map]
    refine congrArg List.flatten (List.map_congr_left ?_)
    intro gr _
    exact combineGroupWithValidation_idem mn mx gr.2
  have hpt2 : (combinePlanWithValidation mn mx
      (combinePlanWithValidation mn mx p)).plannedTasks
      = (combinePlanWithValidation mn mx p).plannedTasks := by
    rw [show (combinePlanWithValidation mn mx
        (combinePlanWithValidation mn mx p)).plannedTasks =
        ((groupByTask (combinePlanWithValidation mn mx p).plannedTasks).map
          fun g => combineGroupWithValidation mn mx g.2).flatten from rfl]
    rw [hcomb, hpt]
  ext
  · rfl
  · rfl
  · rw [hpt2]
  · show sumAlloc (combinePlanWithValidation mn mx
        (combinePlanWithValidation mn mx p)).plannedTasks
      = sumAlloc (combinePlanWithValidation mn mx p).plannedTasks
    rw [hpt2]
  · rfl

/-- C9.  Session combination is idempotent: running combineSessionsOnSameDay
twice yields exactly the plan set one run yields, and the same holds for the
validated combination pass combineSessionsOnSameDayWithValidation used by
redistribution. -/
theorem c9_combination_idempotent (plans : List StudyPlan)
    (settings : UserSettings) :
    combineSessionsOnSameDay (combineSessionsOnSameDay plans)
      = combineSessionsOnSameDay plans ∧
    combineSessionsOnSameDayWithValidation
        (combineSessionsOnSameDayWithValidation plans settings) settings
      = combineSessionsOnSameDayWithValidation plans settings := by
  constructor
  · unfold combineSessionsOnSameDay
    rw [List.map_map]
    refine List.map_congr_left ?_
    intro p _
    exact combinePlan_idem p
  · unfold combineSessionsOnSameDayWithValidation
    rw [List.map_map]
    refine List.map_congr_left ?_
    intro p _
    exact combinePlanWithValidation_idem _ _ p

/-- lookupGroup through a map that rewrites each group's sessions. -/
theorem lookupGroup_map (G : List (String × List StudySession))
    (f : List StudySession → List StudySession) (hf : f [] = []) (tid : String) :
    lookupGroup (G.map fun g => (g.1, f g.2)) tid = f (lookupGroup G tid) := by
  induction G with
  | nil => simp [lookupGroup, hf]
  | cons g rest ih =>
      obtain ⟨k, gr⟩ := g
      by_cases hk : k = tid
      · simp [lookupGroup, hk]
      · simp [lookupGroup, hk, ih]

/-- C10.  The plain combination pass conserves each task's non-skipped
allocated time in every plan (merging concatenates hours, never creating or
losing them), and the skipped sessions are exactly preserved. -/
theorem c10_combine_conserves (plans : List StudyPlan) (tid : String) :
    (combineSessionsOnSameDay plans).map (taskAllocNonSkipped tid)
      = plans.map (taskAllocNonSkipped tid) ∧
    (combineSessionsOnSameDay plans).map skippedSessions
      = plans.map skippedSessions := by
  have hplan : ∀ p : StudyPlan,
      taskAllocNonSkipped tid (combinePlan p) = taskAllocNonSkipped tid p ∧
      skippedSessions (combinePlan p) = skippedSessions p := by
    intro p
    constructor
    · unfold taskAllocNonSkipped
      have hfilters : ((combinePlan p).plannedTasks.filter nonSkipped).filter
          (fun s => s.taskId == tid)
          = lookupGroup (groupByTask (combinePlan p).plannedTasks) tid := by
        rw [lookupGroup_groupByTask]
      have hfilters2 : ((p.plannedTasks.filter nonSkipped).filter
          (fun s => s.taskId == tid))
          = lookupGroup (groupByTask p.plannedTasks) tid := by
        rw [lookupGroup_groupByTask]
      rw [hfilters, hfilters2]
      rw [show (combinePlan p).plannedTasks =
          (((groupByTask p.plannedTasks).map fun g => combineGroup g.2).flatten)
            ++ p.plannedTasks.filter (fun s => s.status == some SStatus.skipped)
          from rfl]
      rw [groupByTask_combinePlan]
      rw [lookupGroup_map _ combineGroup (by rfl) tid]
      exact combineGroup_sum (lookupGroup (groupByTask p.plannedTasks) tid)
    · unfold skippedSessions
      rw [show (combinePlan p).plannedTasks =
          (((groupByTask p.plannedTasks).map fun g => combineGroup g.2).flatten)
            ++ p.plannedTasks.filter (fun s => s.status == some SStatus.skipped)
          from rfl]
      rw [List.filter_append]
      have h1 : ((((groupByTask p.plannedTasks).map fun g =>
          combineGroup g.2).flatten).filter
            fun s => s.status == some SStatus.skipped) = [] := by
        rw [List.filter_eq_nil_iff]
        intro a ha
        have := combinePlan_combined_nonSkipped p.plannedTasks a ha
        simp only [nonSkipped] at this
        simpa using this
      have h2 : ((p.plannedTasks.filter fun s =>
          s.status == some SStatus.skipped).filter
            fun s => s.status == some SStatus.skipped)
          = p.plannedTasks.filter fun s => s.status == some SStatus.skipped := by
        rw [List.filter_eq_self]
        intro a ha
        exact (List.mem_filter.mp ha).2
      rw [h1, h2, List.nil_append]
  constructor
  · unfold combineSessionsOnSameDay
    rw [List.map_map]
    refine List.map_congr_left ?_
    intro p _
    exact (hplan p).1
  · unfold combineSessionsOnSameDay
    rw [List.map_map]
    refine List.map_congr_left ?_
    intro p _
    exact (hplan p).2

/-- Folding rational addition from an arbitrary seed. -/
theorem foldl_add_rat (l : List ℚ) :
    ∀ a : ℚ, l.foldl (fun x y => x + y) a = a + l.sum := by
  induction l with
  | nil => intro a; simp
  | cons q rest ih => intro a; simp [ih, add_assoc]

/-- Every length the optimizeSessionDistribution loop emits lies in
[minLen, maxLen], and their total does not exceed the hours given. -/
theorem optLoop_bounds (minLen maxLen : ℚ) :
    ∀ (fuel : Nat) (rem : ℚ), 0 ≤ rem →
      (∀ x ∈ optLoop minLen maxLen fuel rem, minLen ≤ x ∧ x ≤ maxLen) ∧
      (optLoop minLen maxLen fuel rem).sum ≤ rem := by
  intro fuel
  induction fuel with
  | zero =>
      intro rem h
      constructor
      · intro x hx
        simp [optLoop] at hx
      · simpa [optLoop] using h
  | succ n ih =>
      intro rem hrem
      unfold optLoop
      split
      · rename_i hpos
        split
        · rename_i hlen
          have hmax : min (rem / (n + 1 : ℚ)) (min maxLen rem) ≤ maxLen :=
            le_trans (min_le_right _ _) (min_le_left _ _)
          have hrem2 : min (rem / (n + 1 : ℚ)) (min maxLen rem) ≤ rem :=
            le_trans (min_le_right _ _) (min_le_right _ _)
          obtain ⟨ihb, ihs⟩ := ih (rem - min (rem / (n + 1 : ℚ)) (min maxLen rem))
            (by linarith)
          constructor
          · intro x hx
            rcases List.mem_cons.mp hx with hx | hx
            · subst hx
              exact ⟨hlen, hmax⟩
            · exact ihb x hx
          · rw [List.sum_cons]
            linarith
        · exact ih rem hrem
      · constructor
        · intro x hx
          simp at hx
        · simpa using hrem

/-- The remainder fold keeps the lower bound on every element and the upper
bound on every non-first element. -/
theorem optFold_bounds (totalHours : ℚ) (sessions : List ℚ)
    (hb : ∀ x ∈ sessions, minLen ≤ x ∧ x ≤ maxLen)
    (hs : sessions.sum ≤ totalHours) :
    (∀ x ∈ optFold totalHours sessions, minLen ≤ x) ∧
    (∀ x ∈ (optFold totalHours sessions).tail, x ≤ maxLen) := by
  match sessions with
  | [] =>
      constructor
      · intro x hx
        simp [optFold] at hx
      · intro x hx
        simp [optFold] at hx
  | h :: t =>
      have hh := (hb h (by simp)).1
      have ht : ∀ x ∈ t, minLen ≤ x ∧ x ≤ maxLen := fun x hx => hb x (by simp [hx])
      have hsum : (h :: t).sum ≤ totalHours := hs
      simp only [optFold]
      split
      · rename_i hpos
        rw [foldl_add_rat, zero_add] at hpos
        constructor
        · intro x hx
          rcases List.mem_cons.mp hx with hx | hx
          · subst hx
            rw [foldl_add_rat, zero_add]
            linarith
          · exact (ht x hx).1
        · intro x hx
          simp only [List.tail_cons] at hx
          exact (ht x hx).2
      · constructor
        · intro x hx
          rcases List.mem_cons.mp hx with hx | hx
          · subst hx; exact hh
          · exact (ht x hx).1
        · intro x hx
          simp only [List.tail_cons] at hx
          exact (ht x hx).2

/-- C2 counterexample.  One pending 10-hour task due tomorrow, even mode,
8 available hours per day, 15-minute minimum: the remainder fold pushes the
first session to 6 allocated hours, above min(4, dailyAvailableHours) = 4 —
refuting the claimed upper bound on regular sessions in generateNewStudyPlan
output. -/
theorem c2_counterexample :
    ∃ p ∈ (generateNewStudyPlan c2Settings 700 600 [c2Task] [] []).1,
      ∃ s ∈ p.plannedTasks,
        ¬(s.allocatedHours ≤ min 4 c2Settings.dailyAvailableHours) := by
  decide

/-- C2 amended.  In even mode the per-session sizing loop caps every session
at min(4, dailyAvailableHours) and floors it at minSessionLength/60, but the
leftover remainder is then folded into the FIRST session, which can exceed
the cap (and day-capacity clipping at assignment time can further shrink a
session below the floor).  What holds of optimizeSessionDistribution's
output: every planned length is at least minSessionLength/60, and every
length except the first is at most min(4, dailyAvailableHours). -/
theorem c2_session_bounds (settings : UserSettings) (totalHours : ℚ)
    (numDays : Nat) (h : 0 ≤ totalHours) :
    (∀ x ∈ optimizeSessionDistribution settings totalHours numDays,
        (effMinSessionLength settings : ℚ) / 60 ≤ x) ∧
    (∀ x ∈ (optimizeSessionDistribution settings totalHours numDays).tail,
        x ≤ min 4 settings.dailyAvailableHours) := by
  unfold optimizeSessionDistribution
  obtain ⟨hb, hs⟩ := optLoop_bounds ((effMinSessionLength settings : ℚ) / 60)
    (min 4 settings.dailyAvailableHours)
    ((if min (numDays : Int)
        (Int.floor (totalHours / ((effMinSessionLength settings : ℚ) / 60))) = 0
      then (numDays : Int)
      else min (numDays : Int)
        (Int.floor (totalHours / ((effMinSessionLength settings : ℚ) / 60)))).toNat)
    totalHours h
  exact optFold_bounds totalHours _ hb hs

/-- Witness for the C2 amended theorem at the counterexample input: the
computed split is [6, 4]; both entries are at least 1/4 hour and the tail
entry respects the 4-hour cap. -/
theorem c2_witness :
    optimizeSessionDistribution c2Settings 10 2 = [6, 4] ∧
      ((∀ x ∈ optimizeSessionDistribution c2Settings 10 2,
          (effMinSessionLength c2Settings : ℚ) / 60 ≤ x) ∧
        (∀ x ∈ (optimizeSessionDistribution c2Settings 10 2).tail,
          x ≤ min 4 c2Settings.dailyAvailableHours)) :=
  ⟨by decide, c2_session_bounds c2Settings 10 2 (by decide)⟩

/-- round60 lands on the 1/60 grid. -/
theorem round60_grid (q : ℚ) : Qgrid (round60 q) :=
  ⟨Int.floor (q * 60 + 1/2), rfl⟩

/-- On the 1/60 grid, round60 is the identity. -/
theorem Qgrid.round60_eq {q : ℚ} (h : Qgrid q) : round60 q = q := by
  obtain ⟨k, rfl⟩ := h
  unfold round60
  have h60 : ((k : ℚ) / 60) * 60 = (k : ℚ) := by
    field_simp
  rw [h60, Int.floor_int_add]
  norm_num

/-- The 1/60 grid is closed under addition. -/
theorem Qgrid.add {a b : ℚ} (ha : Qgrid a) (hb : Qgrid b) : Qgrid (a + b) := by
  obtain ⟨k, rfl⟩ := ha
  obtain ⟨m, rfl⟩ := hb
  refine ⟨k + m, ?_⟩
  push_cast
  ring

/-- Zero is on the 1/60 grid. -/
theorem Qgrid.zero : Qgrid 0 := ⟨0, by norm_num⟩

/-- Appending a session adds its hours to the sum. -/
theorem sumAlloc_append (l : List StudySession) (s : StudySession) :
    sumAlloc (l ++ [s]) = sumAlloc l + s.allocatedHours := by
  rw [sumAlloc_eq_sum, sumAlloc_eq_sum]
  simp

/-- calculateTotalStudyHours as a filtered sumAlloc. -/
theorem calcTotal_eq (l : List StudySession) :
    calculateTotalStudyHours l
      = sumAlloc (l.filter fun s => s.done || s.status == some SStatus.skipped) :=
  rfl

/-- calculateTotalStudyHours is invariant under permutation. -/
theorem calcTotal_perm {l l2 : List StudySession} (h : l.Perm l2) :
    calculateTotalStudyHours l = calculateTotalStudyHours l2 := by
  rw [calcTotal_eq, calcTotal_eq, sumAlloc_eq_sum, sumAlloc_eq_sum]
  exact List.Perm.sum_eq ((h.filter _).map _)

/-- Prepending a session adds its hours to the sum. -/
theorem sumAlloc_cons (s : StudySession) (l : List StudySession) :
    sumAlloc (s :: l) = s.allocatedHours + sumAlloc l := by
  rw [sumAlloc_eq_sum, sumAlloc_eq_sum]
  simp

/-- Congruence for the done/skipped sum over a cons when only time fields
differ in the heads. -/
theorem calc_cons_congr {s s2 : StudySession} {rest out : List StudySession}
    (hds : s2.done = s.done) (hst : s2.status = s.status)
    (ha : s2.allocatedHours = s.allocatedHours)
    (hsum : calculateTotalStudyHours out = calculateTotalStudyHours rest) :
    calculateTotalStudyHours (s2 :: out) = calculateTotalStudyHours (s :: rest) := by
  rw [calcTotal_eq, calcTotal_eq] at hsum ⊢
  rw [List.filter_cons, List.filter_cons, hds, hst]
  by_cases hpred : (s.done || s.status == some SStatus.skipped) = true
  · rw [if_pos hpred, if_pos hpred, sumAlloc_cons, sumAlloc_cons, ha, hsum]
  · rw [if_neg hpred, if_neg hpred, hsum]

/-- Slot assignment only rewrites times, so the done/skipped sum of the
produced sessions equals that of the pending ones. -/
theorem assignSlotsGo_calc (settings : UserSettings)
    (commitments : List FixedCommitment) (d : Int) :
    ∀ (pending assigned : List StudySession),
      calculateTotalStudyHours (assignSlotsGo settings commitments d assigned pending)
        = calculateTotalStudyHours pending := by
  intro pending
  induction pending with
  | nil => intro assigned; rfl
  | cons s rest ih =>
      intro assigned
      simp only [assignSlotsGo]
      split
      · exact calc_cons_congr rfl rfl rfl (ih _)
      · exact calc_cons_congr rfl rfl rfl (ih _)

/-- Every plan the plain combine pass outputs carries the done/skipped sum
as its totalStudyHours. -/
theorem inv_combine (plans : List StudyPlan) :
    ∀ p ∈ combineSessionsOnSameDay plans,
      p.totalStudyHours = calculateTotalStudyHours p.plannedTasks := by
  intro p hp
  obtain ⟨q, _, rfl⟩ := List.mem_map.mp hp
  rfl

/-- assignTimesPlan preserves the totalStudyHours invariant: it keeps the
stored total and only reorders sessions and rewrites their times. -/
theorem assignTimesPlan_inv (settings : UserSettings)
    (commitments : List FixedCommitment) (tasks : List Task) (p : StudyPlan)
    (h : p.totalStudyHours = calculateTotalStudyHours p.plannedTasks) :
    (assignTimesPlan settings commitments tasks p).totalStudyHours
      = calculateTotalStudyHours
          (assignTimesPlan settings commitments tasks p).plannedTasks := by
  show p.totalStudyHours = calculateTotalStudyHours
    (assignSlotsGo settings commitments p.date []
      (p.plannedTasks.insertionSort fun a b => sessTaskLEb tasks a b = true))
  rw [assignSlotsGo_calc, h]
  exact calcTotal_perm (List.perm_insertionSort _ _).symm

/-- The even missed-session block preserves the totalStudyHours invariant
(it either leaves the state alone or ends with a combine pass). -/
theorem evenMissedRedistribution_inv (settings : UserSettings)
    (days : List Int) (tasksEven : List Task) (mm : List (String × ℚ))
    (st : GenState)
    (h : ∀ p ∈ st.plans,
      p.totalStudyHours = calculateTotalStudyHours p.plannedTasks) :
    ∀ p ∈ (evenMissedRedistribution settings days tasksEven mm st).plans,
      p.totalStudyHours = calculateTotalStudyHours p.plannedTasks := by
  unfold evenMissedRedistribution
  split
  · exact h
  · intro p hp
    exact inv_combine _ p hp

/-- Every plan generateEven returns carries the done/skipped sum as its
totalStudyHours: each phase either ends with a combine pass or only
reassigns times. -/
theorem generateEven_inv (settings : UserSettings) (today : Int)
    (nowMinutes : ℚ) (tasks : List Task) (commitments : List FixedCommitment)
    (existingPlans : List StudyPlan) :
    ∀ p ∈ (generateEven settings today nowMinutes tasks commitments
        existingPlans).1,
      p.totalStudyHours = calculateTotalStudyHours p.plannedTasks := by
  intro p hp
  simp only [generateEven] at hp
  refine evenMissedRedistribution_inv _ _ _ _ _ ?_ p hp
  intro q hq
  obtain ⟨r, hr, rfl⟩ := List.mem_map.mp hq
  refine assignTimesPlan_inv _ _ _ r ?_
  revert hr
  split
  · intro hr
    exact inv_combine _ r hr
  · intro hr
    exact inv_combine _ r hr

/-- The eisenhower task loop keeps its running total equal to the session
sum and on the 1/60 grid. -/
theorem eisTaskLoop_inv (settings : UserSettings)
    (commitments : List FixedCommitment) (d : Int) :
    ∀ (ts : List Task) (sessions : List StudySession) (tot avail : ℚ)
      (sched : List (String × ℚ)),
      tot = sumAlloc sessions → Qgrid tot →
      (eisTaskLoop settings commitments d ts (sessions, tot, avail, sched)).2.1
          = sumAlloc
            (eisTaskLoop settings commitments d ts (sessions, tot, avail, sched)).1 ∧
        Qgrid (eisTaskLoop settings commitments d ts
          (sessions, tot, avail, sched)).2.1 := by
  intro ts
  induction ts with
  | nil =>
      intro sessions tot avail sched h hg
      exact ⟨h, hg⟩
  | cons t rest ih =>
      intro sessions tot avail sched h hg
      simp only [eisTaskLoop]
      split
      · exact ⟨h, hg⟩
      · split
        · exact ih sessions tot avail sched h hg
        · split
          · split
            · exact ih sessions tot avail sched h hg
            · rename_i slotStart slotStop heq
              refine ih _ _ _ _ ?_ ?_
              · rw [sumAlloc_append]
                have hga : Qgrid (round60 (min (t.estimatedHours -
                    lookupS sched t.id) avail)) := round60_grid _
                rw [Qgrid.round60_eq (hg.add hga), h]
              · exact round60_grid _
          · exact ih sessions tot avail sched h hg

/-- The eisenhower day fold keeps the per-plan total equal to the session
sum. -/
theorem eis_fold_inv (settings : UserSettings)
    (commitments : List FixedCommitment) (tasksSorted : List Task) :
    ∀ (days : List Int) (acc : List StudyPlan × List (String × ℚ)),
      (∀ p ∈ acc.1, p.totalStudyHours = sumAlloc p.plannedTasks) →
      ∀ p ∈ (days.foldl (eisDayStep settings commitments tasksSorted) acc).1,
        p.totalStudyHours = sumAlloc p.plannedTasks := by
  intro days
  induction days with
  | nil => intro acc h; exact h
  | cons d rest ih =>
      intro acc h
      rw [List.foldl_cons]
      refine ih _ ?_
      intro p hp
      simp only [eisDayStep] at hp
      rcases List.mem_append.mp hp with hp | hp
      · exact h p hp
      · simp only [List.mem_singleton] at hp
        subst hp
        exact (eisTaskLoop_inv settings commitments d _ [] 0
          settings.dailyAvailableHours acc.2 rfl Qgrid.zero).1

/-- Every plan generateEisenhower returns carries the sum of ALL its
sessions' allocated hours as totalStudyHours. -/
theorem generateEisenhower_inv (settings : UserSettings) (today : Int)
    (nowMinutes : ℚ) (tasks : List Task)
    (commitments : List FixedCommitment) :
    ∀ p ∈ (generateEisenhower settings today nowMinutes tasks commitments).1,
      p.totalStudyHours = sumAlloc p.plannedTasks := by
  intro p hp
  simp only [generateEisenhower] at hp
  exact eis_fold_inv settings commitments _ _ _ (by simp) p hp

/-- C5 counterexample.  In eisenhower mode a freshly generated plan has
totalStudyHours equal to the scheduled hours (2), while the sum over
done/skipped sessions is 0 — refuting the claim for eisenhower mode. -/
theorem c5_counterexample :
    ∃ p ∈ (generateNewStudyPlan c5Settings 700 600 [c5Task] [] []).1,
      ¬(p.totalStudyHours = calculateTotalStudyHours p.plannedTasks) := by
  decide

/-- C5 amended.  In even mode every returned plan's totalStudyHours equals
the sum of allocated hours over done/skipped sessions, as claimed (every
even-mode path ends in a combine pass, and slot assignment preserves the
invariant).  In eisenhower mode, and in the validated combine pass used by
redistribution, totalStudyHours is instead the sum of allocated hours over
ALL of the plan's sessions (generateNewStudyPlan dispatches exactly to the
two generators below according to studyPlanMode). -/
theorem c5_totalStudyHours_semantics (settings : UserSettings) (today : Int)
    (nowMinutes : ℚ) (tasks : List Task) (commitments : List FixedCommitment)
    (existingPlans : List StudyPlan) :
    (∀ p ∈ (generateEven settings today nowMinutes tasks commitments
        existingPlans).1,
      p.totalStudyHours = calculateTotalStudyHours p.plannedTasks) ∧
    (∀ p ∈ (generateEisenhower settings today nowMinutes tasks
        commitments).1,
      p.totalStudyHours = sumAlloc p.plannedTasks) ∧
    (∀ p ∈ combineSessionsOnSameDayWithValidation existingPlans settings,
      p.totalStudyHours = sumAlloc p.plannedTasks) := by
  refine ⟨generateEven_inv settings today nowMinutes tasks commitments
    existingPlans, generateEisenhower_inv settings today nowMinutes tasks
    commitments, ?_⟩
  intro p hp
  obtain ⟨q, _, rfl⟩ := List.mem_map.mp hp
  rfl

/-- Witness for the C5 amended theorem at a concrete eisenhower run: the
first produced plan exists and its totalStudyHours equals its session sum. -/
theorem c5_witness :
    ∃ p, p ∈ (generateEisenhower c5Settings 700 600 [c5Task] []).1 ∧
      p.totalStudyHours = sumAlloc p.plannedTasks := by
  have hmem : ((generateEisenhower c5Settings 700 600 [c5Task] []).1.getD 0
      { id := "", date := 0, plannedTasks := [], totalStudyHours := 0,
        availableHours := 0 })
      ∈ (generateEisenhower c5Settings 700 600 [c5Task] []).1 := by
    decide
  exact ⟨_, hmem,
    (c5_totalStudyHours_semantics c5Settings 700 600 [c5Task] [] []).2.1 _ hmem⟩

/-- The grid is closed under negation. -/
theorem Qgrid.neg {a : ℚ} (ha : Qgrid a) : Qgrid (-a) := by
  obtain ⟨k, rfl⟩ := ha
  exact ⟨-k, by push_cast; ring⟩

/-- The grid is closed under subtraction. -/
theorem Qgrid.sub {a b : ℚ} (ha : Qgrid a) (hb : Qgrid b) : Qgrid (a - b) := by
  rw [sub_eq_add_neg]
  exact ha.add hb.neg

/-- The grid is closed under min. -/
theorem Qgrid.min {a b : ℚ} (ha : Qgrid a) (hb : Qgrid b) : Qgrid (min a b) := by
  rcases le_total a b with h | h
  · rwa [min_eq_left h]
  · rwa [min_eq_right h]

/-- On the grid, the ceiling of q * 60 is exactly q * 60. -/
theorem Qgrid.ceil_mul (q : ℚ) (h : Qgrid q) :
    ((Int.ceil (q * 60) : ℤ) : ℚ) = q * 60 := by
  obtain ⟨k, rfl⟩ := h
  have h60 : ((k : ℚ) / 60) * 60 = (k : ℚ) := by field_simp
  rw [h60]
  simp

/-- sumAlloc distributes over append. -/
theorem sumAlloc_app (a b : List StudySession) :
    sumAlloc (a ++ b) = sumAlloc a + sumAlloc b := by
  rw [sumAlloc_eq_sum, sumAlloc_eq_sum, sumAlloc_eq_sum]
  simp

/-- scheduledHoursFor over an appended one-day plan. -/
theorem scheduledHoursFor_append (plans : List StudyPlan) (p : StudyPlan)
    (tid : String) :
    scheduledHoursFor (plans ++ [p]) tid
      = scheduledHoursFor plans tid + daySum p.plannedTasks tid := by
  unfold scheduledHoursFor daySum
  rw [List.map_append, List.flatten_append, sumAlloc_app]
  simp

/-- A session list whose members are all non-skipped and carry one of two
distinct task ids has its sum split by those ids. -/
theorem sumAlloc_partition_two (a b : String) (hab : a ≠ b) :
    ∀ l : List StudySession,
      (∀ s ∈ l, nonSkipped s = true ∧ (s.taskId = a ∨ s.taskId = b)) →
      sumAlloc l = daySum l a + daySum l b := by
  intro l
  induction l with
  | nil => intro _; simp [daySum, sumAlloc]
  | cons s rest ih =>
      intro h
      obtain ⟨hns, hid⟩ := h s (by simp)
      have hrest := ih fun x hx => h x (by simp [hx])
      unfold daySum at hrest ⊢
      rw [List.filter_cons, List.filter_cons, sumAlloc_cons]
      rcases hid with hid | hid
      · have h1 : (s.taskId == a && nonSkipped s) = true := by
          simp [hid, hns]
        have h2 : (s.taskId == b && nonSkipped s) = false := by
          simp [hid, hab]
        rw [h1, h2]
        simp only [if_true, Bool.false_eq_true, if_false]
        rw [sumAlloc_cons, hrest]
        ring
      · have h1 : (s.taskId == a && nonSkipped s) = false := by
          have : ¬ s.taskId = a := fun he => hab (he ▸ hid)
          simp [this]
        have h2 : (s.taskId == b && nonSkipped s) = true := by
          simp [hid, hns]
        rw [h1, h2]
        simp only [if_true, Bool.false_eq_true, if_false]
        rw [sumAlloc_cons, hrest]
        ring

/-- Lookup steps through a cons cell by key comparison. -/
theorem lookupS_cons (k1 : String) (v1 : ℚ) (rest : List (String × ℚ))
    (tid : String) :
    lookupS ((k1, v1) :: rest) tid
      = if k1 = tid then v1 else lookupS rest tid := by
  unfold lookupS
  by_cases h : k1 = tid
  · rw [List.find?_cons_of_pos _ (by simpa using h), if_pos h]
    rfl
  · rw [List.find?_cons_of_neg _ (by simpa using h), if_neg h]

/-- Lookup in the updated map: the written key reads back the value, other
keys are untouched. -/
theorem lookupS_setS (m : List (String × ℚ)) (k : String) (v : ℚ)
    (tid : String) :
    lookupS (setS m k v) tid = if tid = k then v else lookupS m tid := by
  have mapcase : ∀ (m2 : List (String × ℚ)), tid ≠ k →
      lookupS (m2.map fun p => if p.1 == k then (p.1, v) else p) tid
        = lookupS m2 tid := by
    intro m2 htid
    induction m2 with
    | nil => rfl
    | cons q rest ih =>
        obtain ⟨k1, v1⟩ := q
        by_cases hbeq : k1 = k
        · have hne : ¬ k1 = tid := fun e => htid (e.symm.trans hbeq)
          simp only [List.map_cons, if_pos (show (k1 == k) = true by simpa using hbeq)]
          rw [lookupS_cons, lookupS_cons]
          simp only [if_neg hne, ih]
        · simp only [List.map_cons,
            if_neg (show ¬ (k1 == k) = true by simpa using hbeq)]
          rw [lookupS_cons, lookupS_cons, ih]
  have mapself : ∀ (m2 : List (String × ℚ)),
      ((m2.find? fun p => p.1 == k).isSome = true) →
      lookupS (m2.map fun p => if p.1 == k then (p.1, v) else p) k = v := by
    intro m2
    induction m2 with
    | nil => intro h; simp at h
    | cons q rest ih =>
        obtain ⟨k1, v1⟩ := q
        intro h
        by_cases hbeq : k1 = k
        · simp only [List.map_cons, if_pos (show (k1 == k) = true by simpa using hbeq)]
          rw [lookupS_cons, if_pos hbeq]
        · rw [List.find?_cons_of_neg _ (by simpa using hbeq)] at h
          simp only [List.map_cons,
            if_neg (show ¬ (k1 == k) = true by simpa using hbeq)]
          rw [lookupS_cons, if_neg hbeq, ih h]
  have notfound : ∀ (m2 : List (String × ℚ)),
      ((m2.find? fun p => p.1 == k).isSome = false) →
      lookupS (m2 ++ [(k, v)]) tid
        = if tid = k then v else lookupS m2 tid := by
    intro m2
    induction m2 with
    | nil =>
        intro _
        simp only [List.nil_append]
        rw [lookupS_cons]
        by_cases ht : tid = k
        · rw [if_pos ht.symm, if_pos ht]
        · rw [if_neg (fun e => ht e.symm), if_neg ht]
    | cons q rest ih =>
        obtain ⟨k1, v1⟩ := q
        intro h
        by_cases hbeq : k1 = k
        · rw [List.find?_cons_of_pos _ (by simpa using hbeq)] at h
          simp at h
        · rw [List.find?_cons_of_neg _ (by simpa using hbeq)] at h
          simp only [List.cons_append]
          rw [lookupS_cons, lookupS_cons, ih h]
          by_cases ht : k1 = tid
          · have hnk : ¬ tid = k := fun e => hbeq (ht.trans e)
            simp only [if_pos ht, if_neg hnk]
          · simp only [if_neg ht]
  unfold setS
  by_cases hs : ((m.find? fun p => p.1 == k).isSome = true)
  · rw [if_pos hs]
    by_cases ht : tid = k
    · subst ht
      rw [if_pos rfl]
      exact mapself m hs
    · rw [if_neg ht]
      exact mapcase m ht
  · rw [if_neg hs]
    simp only [Bool.not_eq_true] at hs
    exact notfound m hs

/-- The initial eisenhower map holds zero for every key. -/
theorem lookupS_init (ts : List Task) (tid : String) :
    lookupS (ts.map fun t => (t.id, (0 : ℚ))) tid = 0 := by
  induction ts with
  | nil => rfl
  | cons t rest ih =>
      rw [List.map_cons, lookupS_cons]
      by_cases h : t.id = tid
      · rw [if_pos h]
      · rw [if_neg h, ih]

/-- daySum distributes over append. -/
theorem daySum_append (a b : List StudySession) (tid : String) :
    daySum (a ++ b) tid = daySum a tid + daySum b tid := by
  unfold daySum
  rw [List.filter_append, sumAlloc_app]

/-- Bookkeeping facts of the eisenhower per-day task loop: the schedule map
stays on the grid, the remaining availability stays on the grid and
non-negative, session hours are conserved against availability, the map and
the session list move in sync per task, tasks outside the list never gain
hours, per-task totals never exceed a uniform estimate bound, and every new
session is non-skipped and belongs to a task of the list. -/
theorem eisTaskLoop_props (settings : UserSettings)
    (commitments : List FixedCommitment) (d : Int) :
    ∀ (ts : List Task) (sessions : List StudySession) (tot avail : ℚ)
      (sched : List (String × ℚ)),
      (∀ tid, Qgrid (lookupS sched tid)) →
      Qgrid avail →
      (∀ t ∈ ts, Qgrid t.estimatedHours) →
      (∀ tid, Qgrid (lookupS (eisTaskLoop settings commitments d ts
          (sessions, tot, avail, sched)).2.2.2 tid)) ∧
      Qgrid (eisTaskLoop settings commitments d ts
          (sessions, tot, avail, sched)).2.2.1 ∧
      (0 ≤ avail → 0 ≤ (eisTaskLoop settings commitments d ts
          (sessions, tot, avail, sched)).2.2.1) ∧
      (sumAlloc (eisTaskLoop settings commitments d ts
          (sessions, tot, avail, sched)).1
        + (eisTaskLoop settings commitments d ts
          (sessions, tot, avail, sched)).2.2.1
        = sumAlloc sessions + avail) ∧
      (∀ tid, lookupS (eisTaskLoop settings commitments d ts
          (sessions, tot, avail, sched)).2.2.2 tid + daySum sessions tid
        = lookupS sched tid + daySum (eisTaskLoop settings commitments d ts
          (sessions, tot, avail, sched)).1 tid) ∧
      (∀ tid, (∀ t ∈ ts, ¬ t.id = tid) →
        lookupS (eisTaskLoop settings commitments d ts
          (sessions, tot, avail, sched)).2.2.2 tid = lookupS sched tid) ∧
      (∀ (E : ℚ) (tid : String),
        (∀ t ∈ ts, t.id = tid → t.estimatedHours = E) →
        lookupS sched tid ≤ E →
        lookupS (eisTaskLoop settings commitments d ts
          (sessions, tot, avail, sched)).2.2.2 tid ≤ E) ∧
      (∀ s ∈ (eisTaskLoop settings commitments d ts
          (sessions, tot, avail, sched)).1,
        s ∈ sessions ∨ (nonSkipped s = true ∧ ∃ t ∈ ts, s.taskId = t.id)) ∧
      (∀ tid, lookupS sched tid ≤ lookupS (eisTaskLoop settings commitments d ts
          (sessions, tot, avail, sched)).2.2.2 tid) := by
  intro ts
  induction ts with
  | nil =>
      intro sessions tot avail sched hsched hgav hest
      refine ⟨hsched, hgav, fun h => h, rfl, fun tid => rfl, fun tid _ => rfl,
        fun E tid _ hle => hle, fun s hs => Or.inl hs, fun tid => le_refl _⟩
  | cons t rest ih =>
      intro sessions tot avail sched hsched hgav hest
      have hestT : Qgrid t.estimatedHours := hest t (by simp)
      have hestR : ∀ t2 ∈ rest, Qgrid t2.estimatedHours :=
        fun t2 h2 => hest t2 (by simp [h2])
      simp only [eisTaskLoop]
      split
      · exact ⟨hsched, hgav, fun h => h, rfl, fun tid => rfl, fun tid _ => rfl,
          fun E tid _ hle => hle, fun s hs => Or.inl hs, fun tid => le_refl _⟩
      · split
        · obtain ⟨c1, c2, c3, c4, c5, c6, c7, c8, c9⟩ :=
            ih sessions tot avail sched hsched hgav hestR
          refine ⟨c1, c2, c3, c4, c5, ?_, ?_, ?_, c9⟩
          · exact fun tid h => c6 tid fun t2 h2 => h t2 (by simp [h2])
          · exact fun E tid h hle =>
              c7 E tid (fun t2 h2 => h t2 (by simp [h2])) hle
          · intro s hs
            rcases c8 s hs with h | ⟨hns, t2, h2, hid⟩
            · exact Or.inl h
            · exact Or.inr ⟨hns, t2, by simp [h2], hid⟩
        · split
          · split
            · obtain ⟨c1, c2, c3, c4, c5, c6, c7, c8, c9⟩ :=
                ih sessions tot avail sched hsched hgav hestR
              refine ⟨c1, c2, c3, c4, c5, ?_, ?_, ?_, c9⟩
              · exact fun tid h => c6 tid fun t2 h2 => h t2 (by simp [h2])
              · exact fun E tid h hle =>
                  c7 E tid (fun t2 h2 => h t2 (by simp [h2])) hle
              · intro s hs
                rcases c8 s hs with h | ⟨hns, t2, h2, hid⟩
                · exact Or.inl h
                · exact Or.inr ⟨hns, t2, by simp [h2], hid⟩
            · rename_i hguard hdisc slotStart slotStop heq
              have hg_lk : Qgrid (lookupS sched t.id) := hsched t.id
              have hg_rem : Qgrid (t.estimatedHours - lookupS sched t.id) :=
                hestT.sub hg_lk
              have hg_m :
                  Qgrid (min (t.estimatedHours - lookupS sched t.id) avail) :=
                hg_rem.min hgav
              have halloc :
                  round60 (min (t.estimatedHours - lookupS sched t.id) avail)
                    = min (t.estimatedHours - lookupS sched t.id) avail :=
                hg_m.round60_eq
              rw [halloc,
                (hgav.sub hg_m).round60_eq, (hg_lk.add hg_m).round60_eq]
              generalize hsN :
                ({ taskId := t.id, startTime := some slotStart.toNat,
                   endTime := some slotStop.toNat,
                   allocatedHours :=
                     min (t.estimatedHours - lookupS sched t.id) avail,
                   sessionNumber :=
                     (sessions.filter fun x => x.taskId == t.id).length + 1,
                   status := some SStatus.scheduled } : StudySession) = sN
              have hid : sN.taskId = t.id := by rw [← hsN]
              have halc : sN.allocatedHours
                  = min (t.estimatedHours - lookupS sched t.id) avail := by
                rw [← hsN]
              have hnsk : nonSkipped sN = true := by rw [← hsN]; rfl
              have hm_le : min (t.estimatedHours - lookupS sched t.id) avail
                  ≤ avail := min_le_right _ _
              have hm_rem : min (t.estimatedHours - lookupS sched t.id) avail
                  ≤ t.estimatedHours - lookupS sched t.id := min_le_left _ _
              have hsched2 : ∀ tid, Qgrid (lookupS (setS sched t.id
                  (lookupS sched t.id
                    + min (t.estimatedHours - lookupS sched t.id) avail)) tid) := by
                intro tid
                rw [lookupS_setS]
                by_cases h : tid = t.id
                · rw [if_pos h]
                  exact hg_lk.add hg_m
                · rw [if_neg h]
                  exact hsched tid
              obtain ⟨c1, c2, c3, c4, c5, c6, c7, c8, c9⟩ :=
                ih (sessions ++ [sN])
                  (round60 (tot
                    + min (t.estimatedHours - lookupS sched t.id) avail))
                  (avail - min (t.estimatedHours - lookupS sched t.id) avail)
                  (setS sched t.id (lookupS sched t.id
                    + min (t.estimatedHours - lookupS sched t.id) avail))
                  hsched2 (hgav.sub hg_m) hestR
              have hm0 : 0 ≤ min (t.estimatedHours - lookupS sched t.id) avail :=
                le_of_lt hguard
              refine ⟨c1, c2, ?_, ?_, ?_, ?_, ?_, ?_, ?_⟩
              · intro h0
                exact c3 (by linarith)
              · rw [c4, sumAlloc_append, halc]
                ring
              · intro tid
                have := c5 tid
                rw [daySum_append] at this
                have hday : daySum [sN] tid
                    = if t.id = tid
                      then min (t.estimatedHours - lookupS sched t.id) avail
                      else 0 := by
                  unfold daySum
                  by_cases h : t.id = tid
                  · have : (sN.taskId == tid && nonSkipped sN) = true := by
                      simp [hid, h, hnsk]
                    simp only [List.filter_cons, this, List.filter_nil,
                      if_pos h, if_true]
                    rw [sumAlloc_cons, halc, sumAlloc]
                    simp [List.foldl]
                  · have : (sN.taskId == tid && nonSkipped sN) = false := by
                      simp [hid, h]
                    simp only [List.filter_cons, this, List.filter_nil,
                      Bool.false_eq_true, if_neg h, if_false]
                    rfl
                rw [hday, lookupS_setS] at this
                by_cases h : tid = t.id
                · rw [if_pos h, if_pos h.symm] at this
                  subst h
                  linarith
                · rw [if_neg h, if_neg (fun e => h e.symm)] at this
                  linarith
              · intro tid h
                have hne : ¬ t.id = tid := h t (by simp)
                have := c6 tid fun t2 h2 => h t2 (by simp [h2])
                rw [this, lookupS_setS, if_neg (fun e => hne e.symm)]
              · intro E tid hE hle
                refine c7 E tid (fun t2 h2 => hE t2 (by simp [h2])) ?_
                rw [lookupS_setS]
                by_cases h : tid = t.id
                · rw [if_pos h]
                  have hEt : t.estimatedHours = E := hE t (by simp) h.symm
                  have : lookupS sched t.id ≤ E := by rw [← h]; exact hle
                  linarith
                · rw [if_neg h]
                  exact hle
              · intro s hs
                rcases c8 s hs with hmem | ⟨hns, t2, h2, hid2⟩
                · rcases List.mem_append.mp hmem with hmem | hmem
                  · exact Or.inl hmem
                  · have : s = sN := by simpa using hmem
                    subst this
                    exact Or.inr ⟨hnsk, t, by simp, hid⟩
                · exact Or.inr ⟨hns, t2, by simp [h2], hid2⟩
              · intro tid
                refine le_trans ?_ (c9 tid)
                rw [lookupS_setS]
                by_cases h : tid = t.id
                · rw [if_pos h, h]
                  linarith
                · rw [if_neg h]
          · obtain ⟨c1, c2, c3, c4, c5, c6, c7, c8, c9⟩ :=
              ih sessions tot avail sched hsched hgav hestR
            refine ⟨c1, c2, c3, c4, c5, ?_, ?_, ?_, c9⟩
            · exact fun tid h => c6 tid fun t2 h2 => h t2 (by simp [h2])
            · exact fun E tid h hle =>
                c7 E tid (fun t2 h2 => h t2 (by simp [h2])) hle
            · intro s hs
              rcases c8 s hs with h | ⟨hns, t2, h2, hid⟩
              · exact Or.inl h
              · exact Or.inr ⟨hns, t2, by simp [h2], hid⟩

/-- With no busy intervals at all, the slot finder succeeds whenever the
(grid) duration fits in the study window. -/
theorem slot_found_empty (h : ℚ) (ws we buf : Nat) (d : Int)
    (hgrid : Qgrid h) (hfit : h ≤ (we : ℚ) - (ws : ℚ)) :
    findNextAvailableTimeSlot h [] [] ws we buf (some d)
      = some ((ws : Int) * 60, (ws : Int) * 60 + Int.ceil (h * 60)) := by
  unfold findNextAvailableTimeSlot buildBusyIntervals activeCommitments
  simp only [List.map_nil, List.filter_nil, List.nil_append]
  show findSlotLoop (Int.ceil (h * 60)) (buf : Int) ((we : Int) * 60)
    ((ws : Int) * 60) (List.insertionSort startLE []) = _
  simp only [List.insertionSort]
  unfold findSlotLoop
  have hq : ((we : Int) * 60 - (ws : Int) * 60 : ℤ) ≥ Int.ceil (h * 60) := by
    have h1 : ((Int.ceil (h * 60) : ℤ) : ℚ) = h * 60 := hgrid.ceil_mul
    have h3 : ((Int.ceil (h * 60) : ℤ) : ℚ)
        ≤ (((we : Int) * 60 - (ws : Int) * 60 : ℤ) : ℚ) := by
      rw [h1]
      push_cast
      nlinarith
    exact_mod_cast h3
  rw [if_pos hq]

/-- The task loop stops at once when no availability is left. -/
theorem eisTaskLoop_break (settings : UserSettings)
    (commitments : List FixedCommitment) (d : Int) (t : Task) (rest : List Task)
    {sessions : List StudySession} {tot avail : ℚ} {sched : List (String × ℚ)}
    (h : avail ≤ 0) :
    eisTaskLoop settings commitments d (t :: rest) (sessions, tot, avail, sched)
      = (sessions, tot, avail, sched) := by
  simp only [eisTaskLoop, if_pos h]

/-- One successful iteration of the task loop, spelled out. -/
theorem eisTaskLoop_push (settings : UserSettings)
    (commitments : List FixedCommitment) (d : Int) (t : Task) (rest : List Task)
    {sessions : List StudySession} {tot avail : ℚ} {sched : List (String × ℚ)}
    {slotStart slotStop : Int}
    (h0 : ¬ avail ≤ 0)
    (hrem : ¬ t.estimatedHours - lookupS sched t.id ≤ 0)
    (hpos : 0 < min (t.estimatedHours - lookupS sched t.id) avail)
    (heq : findNextAvailableTimeSlot
        (min (t.estimatedHours - lookupS sched t.id) avail) sessions
        (commitmentsForDay commitments d) (effWindowStart settings)
        (effWindowEnd settings) settings.bufferTimeBetweenSessions (some d)
      = some (slotStart, slotStop)) :
    eisTaskLoop settings commitments d (t :: rest) (sessions, tot, avail, sched)
      = eisTaskLoop settings commitments d rest
          (sessions ++ [{ taskId := t.id,
                          startTime := some slotStart.toNat,
                          endTime := some slotStop.toNat,
                          allocatedHours :=
                            round60 (min (t.estimatedHours
                              - lookupS sched t.id) avail),
                          sessionNumber :=
                            (sessions.filter fun x =>
                              x.taskId == t.id).length + 1,
                          status := some SStatus.scheduled }],
            round60 (tot
              + round60 (min (t.estimatedHours - lookupS sched t.id) avail)),
            round60 (avail
              - round60 (min (t.estimatedHours - lookupS sched t.id) avail)),
            setS sched t.id (round60 (lookupS sched t.id
              + round60 (min (t.estimatedHours - lookupS sched t.id) avail)))) := by
  simp only [eisTaskLoop, if_neg h0, if_neg hrem, if_pos hpos, heq]

/-- The task loop never touches the map entry of a task id outside its
list. -/
theorem eisTaskLoop_other (settings : UserSettings)
    (commitments : List FixedCommitment) (d : Int) :
    ∀ (ts : List Task) (sessions : List StudySession) (tot avail : ℚ)
      (sched : List (String × ℚ)) (tid : String),
      (∀ t ∈ ts, ¬ t.id = tid) →
      lookupS (eisTaskLoop settings commitments d ts
        (sessions, tot, avail, sched)).2.2.2 tid = lookupS sched tid := by
  intro ts
  induction ts with
  | nil => intro sessions tot avail sched tid _; rfl
  | cons t rest ih =>
      intro sessions tot avail sched tid h
      have hrest : ∀ t2 ∈ rest, ¬ t2.id = tid := fun t2 h2 => h t2 (by simp [h2])
      have ht : ¬ t.id = tid := h t (by simp)
      simp only [eisTaskLoop]
      split
      · rfl
      · split
        · exact ih sessions tot avail sched tid hrest
        · split
          · split
            · exact ih sessions tot avail sched tid hrest
            · rw [ih _ _ _ _ tid hrest, lookupS_setS,
                if_neg (fun e => ht e.symm)]
          · exact ih sessions tot avail sched tid hrest

/-- One eisenhower day with exactly the task list [timp, tunimp] (important
first) and no commitments preserves the starvation invariant: the schedule
map stays on the grid, non-negative and capped by the estimates, the
unimportant task only ever holds hours while the important one is already
full, the plan list stays in sync with the map, and the day adds at most
dailyAvailableHours in total. -/
theorem eisDayStep_priority (settings : UserSettings) (timp tunimp : Task)
    (d : Int)
    (hid : ¬ timp.id = tunimp.id)
    (hgmi : Qgrid timp.estimatedHours) (hgmu : Qgrid tunimp.estimatedHours)
    (hdl : bufferAdjDeadline settings timp = bufferAdjDeadline settings tunimp)
    (hgavd : Qgrid settings.dailyAvailableHours)
    (hc0 : 0 ≤ settings.dailyAvailableHours)
    (hfit : settings.dailyAvailableHours
      ≤ (effWindowEnd settings : ℚ) - (effWindowStart settings : ℚ))
    (acc : List StudyPlan × List (String × ℚ))
    (hg : ∀ tid, Qgrid (lookupS acc.2 tid))
    (hnn : ∀ tid, 0 ≤ lookupS acc.2 tid)
    (hcapi : lookupS acc.2 timp.id ≤ timp.estimatedHours)
    (hcapu : lookupS acc.2 tunimp.id ≤ tunimp.estimatedHours)
    (hI5 : 0 < lookupS acc.2 tunimp.id →
      lookupS acc.2 timp.id = timp.estimatedHours)
    (hsync : ∀ tid, scheduledHoursFor acc.1 tid = lookupS acc.2 tid) :
    (∀ tid, Qgrid (lookupS (eisDayStep settings [] [timp, tunimp] acc d).2 tid)) ∧
    (∀ tid, 0 ≤ lookupS (eisDayStep settings [] [timp, tunimp] acc d).2 tid) ∧
    lookupS (eisDayStep settings [] [timp, tunimp] acc d).2 timp.id
      ≤ timp.estimatedHours ∧
    lookupS (eisDayStep settings [] [timp, tunimp] acc d).2 tunimp.id
      ≤ tunimp.estimatedHours ∧
    (0 < lookupS (eisDayStep settings [] [timp, tunimp] acc d).2 tunimp.id →
      lookupS (eisDayStep settings [] [timp, tunimp] acc d).2 timp.id
        = timp.estimatedHours) ∧
    (∀ tid, scheduledHoursFor (eisDayStep settings [] [timp, tunimp] acc d).1 tid
      = lookupS (eisDayStep settings [] [timp, tunimp] acc d).2 tid) ∧
    lookupS (eisDayStep settings [] [timp, tunimp] acc d).2 timp.id
      + lookupS (eisDayStep settings [] [timp, tunimp] acc d).2 tunimp.id
      ≤ lookupS acc.2 timp.id + lookupS acc.2 tunimp.id
        + settings.dailyAvailableHours := by
  have hmemF : ∀ t ∈ ([timp, tunimp].filter fun t =>
      decide (lookupS acc.2 t.id < t.estimatedHours) &&
        decide (d ≤ bufferAdjDeadline settings t)),
      t = timp ∨ t = tunimp := by
    intro t ht
    have := List.mem_filter.mp ht
    simpa using this.1
  have hestF : ∀ t ∈ ([timp, tunimp].filter fun t =>
      decide (lookupS acc.2 t.id < t.estimatedHours) &&
        decide (d ≤ bufferAdjDeadline settings t)),
      Qgrid t.estimatedHours := by
    intro t ht
    rcases hmemF t ht with rfl | rfl
    · exact hgmi
    · exact hgmu
  obtain ⟨c1, c2, c3, c4, c5, c6, c7, c8, c9⟩ :=
    eisTaskLoop_props settings [] d
      ([timp, tunimp].filter fun t =>
        decide (lookupS acc.2 t.id < t.estimatedHours) &&
          decide (d ≤ bufferAdjDeadline settings t))
      [] 0 settings.dailyAvailableHours acc.2 hg hgavd hestF
  have hEi : ∀ t ∈ ([timp, tunimp].filter fun t =>
      decide (lookupS acc.2 t.id < t.estimatedHours) &&
        decide (d ≤ bufferAdjDeadline settings t)),
      t.id = timp.id → t.estimatedHours = timp.estimatedHours := by
    intro t ht h
    rcases hmemF t ht with rfl | rfl
    · rfl
    · exact absurd h.symm hid
  have hEu : ∀ t ∈ ([timp, tunimp].filter fun t =>
      decide (lookupS acc.2 t.id < t.estimatedHours) &&
        decide (d ≤ bufferAdjDeadline settings t)),
      t.id = tunimp.id → t.estimatedHours = tunimp.estimatedHours := by
    intro t ht h
    rcases hmemF t ht with rfl | rfl
    · exact absurd h hid
    · rfl
  have hdayE : ∀ tid, daySum ([] : List StudySession) tid = 0 := fun _ => rfl
  have hcapi2 := c7 timp.estimatedHours timp.id hEi hcapi
  have hcapu2 := c7 tunimp.estimatedHours tunimp.id hEu hcapu
  simp only [eisDayStep]
  refine ⟨c1, fun tid => le_trans (hnn tid) (c9 tid), hcapi2, hcapu2, ?_, ?_, ?_⟩
  · -- the priority invariant
    by_cases hdle : d ≤ bufferAdjDeadline settings timp
    · by_cases hlti : lookupS acc.2 timp.id < timp.estimatedHours
      · by_cases hltu : lookupS acc.2 tunimp.id < tunimp.estimatedHours
        · -- both tasks run today; trace the important task's iteration
          have hu0 : lookupS acc.2 tunimp.id = 0 := by
            by_contra hne
            have h1 : 0 < lookupS acc.2 tunimp.id :=
              lt_of_le_of_ne (hnn _) (Ne.symm hne)
            have := hI5 h1
            linarith
          have hdlu : d ≤ bufferAdjDeadline settings tunimp := hdl ▸ hdle
          have hfil : ([timp, tunimp].filter fun t =>
              decide (lookupS acc.2 t.id < t.estimatedHours) &&
                decide (d ≤ bufferAdjDeadline settings t)) = [timp, tunimp] := by
            simp [List.filter, hlti, hltu, hdle, hdlu]
          rw [hfil]
          by_cases hc : settings.dailyAvailableHours ≤ 0
          · rw [eisTaskLoop_break settings [] d timp [tunimp] hc]
            exact fun h1 => hI5 h1
          · have hrem : 0 < timp.estimatedHours - lookupS acc.2 timp.id := by
              linarith
            have hgi : Qgrid (lookupS acc.2 timp.id) := hg timp.id
            have hg_rem : Qgrid (timp.estimatedHours - lookupS acc.2 timp.id) :=
              hgmi.sub hgi
            have hg_m : Qgrid (min (timp.estimatedHours
                - lookupS acc.2 timp.id) settings.dailyAvailableHours) :=
              hg_rem.min hgavd
            have halloc : round60 (min (timp.estimatedHours
                - lookupS acc.2 timp.id) settings.dailyAvailableHours)
                = min (timp.estimatedHours - lookupS acc.2 timp.id)
                  settings.dailyAvailableHours := hg_m.round60_eq
            have hpos : 0 < min (timp.estimatedHours
                - lookupS acc.2 timp.id) settings.dailyAvailableHours :=
              lt_min hrem (lt_of_not_le hc)
            have hslot : findNextAvailableTimeSlot
                (min (timp.estimatedHours - lookupS acc.2 timp.id)
                  settings.dailyAvailableHours) []
                (commitmentsForDay [] d) (effWindowStart settings)
                (effWindowEnd settings) settings.bufferTimeBetweenSessions
                (some d)
                = some ((effWindowStart settings : Int) * 60,
                    (effWindowStart settings : Int) * 60
                      + Int.ceil ((min (timp.estimatedHours
                          - lookupS acc.2 timp.id)
                        settings.dailyAvailableHours) * 60)) :=
              slot_found_empty _ _ _ _ _ hg_m (le_trans (min_le_right _ _) hfit)
            rw [eisTaskLoop_push settings [] d timp [tunimp] hc
              (not_le.mpr hrem) hpos hslot]
            rw [halloc, (hgavd.sub hg_m).round60_eq, (hgi.add hg_m).round60_eq]
            by_cases hc2 : settings.dailyAvailableHours
                - min (timp.estimatedHours - lookupS acc.2 timp.id)
                  settings.dailyAvailableHours ≤ 0
            · rw [eisTaskLoop_break settings [] d tunimp [] hc2]
              intro h1
              rw [lookupS_setS, if_neg (fun e => hid e.symm)] at h1
              rw [hu0] at h1
              exact absurd h1 (lt_irrefl 0)
            · -- availability survived the important task: it took its full
              -- remainder, so it is already complete whatever happens next
              have hmin : min (timp.estimatedHours - lookupS acc.2 timp.id)
                  settings.dailyAvailableHours
                  = timp.estimatedHours - lookupS acc.2 timp.id := by
                rcases le_total (timp.estimatedHours - lookupS acc.2 timp.id)
                    settings.dailyAvailableHours with h | h
                · exact min_eq_left h
                · rw [min_eq_right h] at hc2
                  simp at hc2
              intro _
              rw [eisTaskLoop_other settings [] d [tunimp] _ _ _ _ timp.id
                (by
                  intro t2 ht2
                  have h2 : t2 = tunimp := by simpa using ht2
                  rw [h2]
                  exact fun e => hid e.symm)]
              rw [lookupS_setS, if_pos rfl, hmin]
              ring
        · -- the unimportant task is already complete or filtered out
          have hnu : ∀ t ∈ ([timp, tunimp].filter fun t =>
              decide (lookupS acc.2 t.id < t.estimatedHours) &&
                decide (d ≤ bufferAdjDeadline settings t)),
              ¬ t.id = tunimp.id := by
            intro t ht
            rcases hmemF t ht with rfl | rfl
            · exact fun e => hid e
            · have := (List.mem_filter.mp ht).2
              simp [hltu] at this
          intro h1
          rw [c6 tunimp.id hnu] at h1
          have hieq := hI5 h1
          linarith
      · -- the important task already carries its full estimate
        intro _
        have hieq : lookupS acc.2 timp.id = timp.estimatedHours :=
          le_antisymm hcapi (not_lt.mp hlti)
        exact le_antisymm hcapi2 (hieq ▸ c9 timp.id)
    · -- the shared deadline has passed: neither task runs today
      have hdlu : ¬ d ≤ bufferAdjDeadline settings tunimp := hdl ▸ hdle
      have hnu : ∀ t ∈ ([timp, tunimp].filter fun t =>
          decide (lookupS acc.2 t.id < t.estimatedHours) &&
            decide (d ≤ bufferAdjDeadline settings t)),
          ¬ t.id = tunimp.id := by
        intro t ht
        rcases hmemF t ht with rfl | rfl
        · exact fun e => hid e
        · have := (List.mem_filter.mp ht).2
          simp [hdlu] at this
      have hni : ∀ t ∈ ([timp, tunimp].filter fun t =>
          decide (lookupS acc.2 t.id < t.estimatedHours) &&
            decide (d ≤ bufferAdjDeadline settings t)),
          ¬ t.id = timp.id := by
        intro t ht
        rcases hmemF t ht with rfl | rfl
        · have := (List.mem_filter.mp ht).2
          simp [hdle] at this
        · exact fun e => hid e.symm
      intro h1
      rw [c6 tunimp.id hnu] at h1
      rw [c6 timp.id hni]
      exact hI5 h1
  · -- plan list stays in sync with the schedule map
    intro tid
    rw [scheduledHoursFor_append, hsync tid]
    have := c5 tid
    rw [hdayE tid] at this
    show lookupS acc.2 tid + daySum (eisTaskLoop settings [] d
        ([timp, tunimp].filter fun t =>
          decide (lookupS acc.2 t.id < t.estimatedHours) &&
            decide (d ≤ bufferAdjDeadline settings t))
        ([], 0, settings.dailyAvailableHours, acc.2)).1 tid
      = lookupS (eisTaskLoop settings [] d
        ([timp, tunimp].filter fun t =>
          decide (lookupS acc.2 t.id < t.estimatedHours) &&
            decide (d ≤ bufferAdjDeadline settings t))
        ([], 0, settings.dailyAvailableHours, acc.2)).2.2.2 tid
    linarith
  · -- at most dailyAvailableHours added per day
    have h3 := c3 hc0
    have hpart : sumAlloc (eisTaskLoop settings [] d
        ([timp, tunimp].filter fun t =>
          decide (lookupS acc.2 t.id < t.estimatedHours) &&
            decide (d ≤ bufferAdjDeadline settings t))
        ([], 0, settings.dailyAvailableHours, acc.2)).1
        = daySum (eisTaskLoop settings [] d
          ([timp, tunimp].filter fun t =>
            decide (lookupS acc.2 t.id < t.estimatedHours) &&
              decide (d ≤ bufferAdjDeadline settings t))
          ([], 0, settings.dailyAvailableHours, acc.2)).1 timp.id
          + daySum (eisTaskLoop settings [] d
            ([timp, tunimp].filter fun t =>
              decide (lookupS acc.2 t.id < t.estimatedHours) &&
                decide (d ≤ bufferAdjDeadline settings t))
            ([], 0, settings.dailyAvailableHours, acc.2)).1 tunimp.id := by
      refine sumAlloc_partition_two timp.id tunimp.id hid _ ?_
      intro s hs
      rcases c8 s hs with h | ⟨hns, t2, h2, hid2⟩
      · simp at h
      · refine ⟨hns, ?_⟩
        rcases hmemF t2 h2 with rfl | rfl
        · exact Or.inl hid2
        · exact Or.inr hid2
    have hsyi := c5 timp.id
    have hsyu := c5 tunimp.id
    rw [hdayE] at hsyi hsyu
    have h4 := c4
    rw [show sumAlloc ([] : List StudySession) = 0 from rfl] at h4
    linarith

/-- The day fold keeps the priority invariants of eisDayStep_priority across
whole horizons and adds at most dailyAvailableHours per processed day. -/
theorem eis_fold_priority (settings : UserSettings) (timp tunimp : Task)
    (hid : ¬ timp.id = tunimp.id)
    (hgmi : Qgrid timp.estimatedHours) (hgmu : Qgrid tunimp.estimatedHours)
    (hdl : bufferAdjDeadline settings timp = bufferAdjDeadline settings tunimp)
    (hgavd : Qgrid settings.dailyAvailableHours)
    (hc0 : 0 ≤ settings.dailyAvailableHours)
    (hfit : settings.dailyAvailableHours
      ≤ (effWindowEnd settings : ℚ) - (effWindowStart settings : ℚ)) :
    ∀ (days : List Int) (acc : List StudyPlan × List (String × ℚ)),
      (∀ tid, Qgrid (lookupS acc.2 tid)) →
      (∀ tid, 0 ≤ lookupS acc.2 tid) →
      lookupS acc.2 timp.id ≤ timp.estimatedHours →
      lookupS acc.2 tunimp.id ≤ tunimp.estimatedHours →
      (0 < lookupS acc.2 tunimp.id →
        lookupS acc.2 timp.id = timp.estimatedHours) →
      (∀ tid, scheduledHoursFor acc.1 tid = lookupS acc.2 tid) →
      (∀ tid, 0 ≤ lookupS (days.foldl
        (eisDayStep settings [] [timp, tunimp]) acc).2 tid) ∧
      lookupS (days.foldl (eisDayStep settings [] [timp, tunimp]) acc).2
          timp.id ≤ timp.estimatedHours ∧
      lookupS (days.foldl (eisDayStep settings [] [timp, tunimp]) acc).2
          tunimp.id ≤ tunimp.estimatedHours ∧
      (0 < lookupS (days.foldl (eisDayStep settings [] [timp, tunimp]) acc).2
          tunimp.id →
        lookupS (days.foldl (eisDayStep settings [] [timp, tunimp]) acc).2
          timp.id = timp.estimatedHours) ∧
      (∀ tid, scheduledHoursFor
          (days.foldl (eisDayStep settings [] [timp, tunimp]) acc).1 tid
        = lookupS (days.foldl (eisDayStep settings [] [timp, tunimp]) acc).2
          tid) ∧
      lookupS (days.foldl (eisDayStep settings [] [timp, tunimp]) acc).2
          timp.id
        + lookupS (days.foldl (eisDayStep settings [] [timp, tunimp]) acc).2
          tunimp.id
        ≤ lookupS acc.2 timp.id + lookupS acc.2 tunimp.id
          + settings.dailyAvailableHours * (days.length : ℚ) := by
  intro days
  induction days with
  | nil =>
      intro acc h1 h2 h3 h4 h5 h6
      refine ⟨h2, h3, h4, h5, h6, ?_⟩
      simp
  | cons d rest ih =>
      intro acc h1 h2 h3 h4 h5 h6
      obtain ⟨p1, p2, p3, p4, p5, p6, p7⟩ :=
        eisDayStep_priority settings timp tunimp d hid hgmi hgmu hdl hgavd
          hc0 hfit acc h1 h2 h3 h4 h5 h6
      rw [List.foldl_cons]
      obtain ⟨q2, q3, q4, q5, q6, q7⟩ :=
        ih (eisDayStep settings [] [timp, tunimp] acc d) p1 p2 p3 p4 p5 p6
      refine ⟨q2, q3, q4, q5, q6, ?_⟩
      have hlen : ((d :: rest).length : ℚ) = (rest.length : ℚ) + 1 := by
        push_cast [List.length_cons]
        ring
      rw [hlen]
      nlinarith [q7, p7]

/-- The pending filter and priority sort send the pair (important,
unimportant) with a common deadline to [important, unimportant], whatever
the input order. -/
theorem pendingSorted_pair (timp tunimp : Task) (tasks : List Task)
    (hpi : timp.status = TStatus.pending) (hpu : tunimp.status = TStatus.pending)
    (hei : 0 < timp.estimatedHours) (heu : 0 < tunimp.estimatedHours)
    (himp : timp.importance = true) (hunimp : tunimp.importance = false)
    (h : tasks = [timp, tunimp] ∨ tasks = [tunimp, timp]) :
    pendingSorted tasks = [timp, tunimp] := by
  have hle : taskLE timp tunimp := by
    unfold taskLE impRank
    rw [himp, hunimp]
    simp
  have hnle : ¬ taskLE tunimp timp := by
    unfold taskLE impRank
    rw [himp, hunimp]
    simp
  rcases h with rfl | rfl
  · unfold pendingSorted
    rw [show List.filter (fun t =>
        t.status == TStatus.pending && decide (0 < t.estimatedHours))
        [timp, tunimp] = [timp, tunimp] from by simp [hpi, hpu, hei, heu]]
    show List.orderedInsert taskLE timp
      (List.orderedInsert taskLE tunimp []) = [timp, tunimp]
    simp only [List.orderedInsert, if_pos hle]
  · unfold pendingSorted
    rw [show List.filter (fun t =>
        t.status == TStatus.pending && decide (0 < t.estimatedHours))
        [tunimp, timp] = [tunimp, timp] from by simp [hpi, hpu, hei, heu]]
    show List.orderedInsert taskLE tunimp
      (List.orderedInsert taskLE timp []) = [timp, tunimp]
    simp only [List.orderedInsert, if_neg hnle]

/-- C8 counterexample.  In eisenhower mode with two pending tasks of a
common deadline (one important with 10 estimated hours, one unimportant with
1), no commitments, and combined estimates far exceeding the capacity before
the deadline, the unimportant task receives a full hour while the important
one receives nothing: with dailyAvailableHours (4) larger than the study
window span (8-10), the important task's oversized greedy session finds no
slot and is silently skipped, and the loop then places the unimportant
task's smaller session. -/
theorem c8_counterexample :
    0 < scheduledHoursFor (generateNewStudyPlan c8Settings 700 600
        [c8TaskImp, c8TaskUnimp] [] []).1 c8TaskUnimp.id ∧
    scheduledHoursFor (generateNewStudyPlan c8Settings 700 600
        [c8TaskImp, c8TaskUnimp] [] []).1 c8TaskImp.id
      < c8TaskImp.estimatedHours := by
  decide

/-- C8 amended.  When dailyAvailableHours fits inside the study window (so
the greedy session of the day always finds a slot), the claim holds: for two
pending tasks of a common deadline, the important one listed first by the
priority sort, the unimportant task holds scheduled hours only if the
important one has reached its full estimate, and under the claimed capacity
shortage (combined estimates exceeding the total capacity of the horizon, by
more than the suggestion threshold, with the unimportant estimate itself
above the threshold) the suggestions contain an entry for the unimportant
task. -/
theorem c8_priority_starvation (settings : UserSettings) (today : Int)
    (nowMinutes : ℚ) (tasks : List Task) (timp tunimp : Task)
    (existingPlans : List StudyPlan)
    (hmode : settings.studyPlanMode = Mode.eisenhower)
    (htasks : tasks = [timp, tunimp] ∨ tasks = [tunimp, timp])
    (hpi : timp.status = TStatus.pending)
    (hpu : tunimp.status = TStatus.pending)
    (hei : 0 < timp.estimatedHours) (heu : 0 < tunimp.estimatedHours)
    (himp : timp.importance = true) (hunimp : tunimp.importance = false)
    (hdleq : timp.deadline = tunimp.deadline)
    (hid : ¬ timp.id = tunimp.id)
    (hgmi : Qgrid timp.estimatedHours) (hgmu : Qgrid tunimp.estimatedHours)
    (hgavd : Qgrid settings.dailyAvailableHours)
    (hc0 : 0 ≤ settings.dailyAvailableHours)
    (hfit : settings.dailyAvailableHours
      ≤ (effWindowEnd settings : ℚ) - (effWindowStart settings : ℚ))
    (hshort : settings.dailyAvailableHours
        * ((computeAvailableDays settings today nowMinutes
          [timp, tunimp]).length : ℚ) + suggestionThreshold settings
      < timp.estimatedHours + tunimp.estimatedHours)
    (hthu : suggestionThreshold settings < tunimp.estimatedHours) :
    (0 < scheduledHoursFor (generateNewStudyPlan settings today nowMinutes
        tasks [] existingPlans).1 tunimp.id →
      scheduledHoursFor (generateNewStudyPlan settings today nowMinutes
        tasks [] existingPlans).1 timp.id = timp.estimatedHours) ∧
    (∃ sug ∈ (generateNewStudyPlan settings today nowMinutes
        tasks [] existingPlans).2, sug.taskTitle = tunimp.title) := by
  have hsorted : pendingSorted tasks = [timp, tunimp] :=
    pendingSorted_pair timp tunimp tasks hpi hpu hei heu himp hunimp htasks
  have hdisp : generateNewStudyPlan settings today nowMinutes tasks []
      existingPlans = generateEisenhower settings today nowMinutes tasks [] := by
    simp [generateNewStudyPlan, hmode]
  rw [hdisp]
  simp only [generateEisenhower]
  rw [hsorted]
  have hdlB : bufferAdjDeadline settings timp
      = bufferAdjDeadline settings tunimp := by
    unfold bufferAdjDeadline
    rw [hdleq]
  obtain ⟨f2, f3, f4, f5, f6, f7⟩ :=
    eis_fold_priority settings timp tunimp hid hgmi hgmu hdlB hgavd hc0 hfit
      (computeAvailableDays settings today nowMinutes [timp, tunimp])
      ([], List.map (fun t => (t.id, (0 : ℚ))) [timp, tunimp])
      (fun tid => by rw [lookupS_init]; exact Qgrid.zero)
      (fun tid => by rw [lookupS_init])
      (by rw [lookupS_init]; exact hei.le)
      (by rw [lookupS_init]; exact heu.le)
      (by rw [lookupS_init]; intro h; exact absurd h (lt_irrefl 0))
      (fun tid => by rw [lookupS_init]; rfl)
  have hzi : lookupS ((([] : List StudyPlan),
        List.map (fun t => (t.id, (0 : ℚ))) [timp, tunimp]) :
        List StudyPlan × List (String × ℚ)).2 timp.id = 0 :=
    lookupS_init _ _
  have hzu : lookupS ((([] : List StudyPlan),
        List.map (fun t => (t.id, (0 : ℚ))) [timp, tunimp]) :
        List StudyPlan × List (String × ℚ)).2 tunimp.id = 0 :=
    lookupS_init _ _
  rw [hzi, hzu] at f7
  constructor
  · -- unimportant hours only after the important task is complete
    intro h1
    rw [f6 tunimp.id] at h1
    rw [f6 timp.id]
    exact f5 h1
  · -- the unimportant task's shortfall is reported
    have hcase : lookupS ((computeAvailableDays settings today nowMinutes
          [timp, tunimp]).foldl (eisDayStep settings [] [timp, tunimp])
          ([], List.map (fun t => (t.id, (0 : ℚ))) [timp, tunimp])).2
          tunimp.id = 0 ∨
        lookupS ((computeAvailableDays settings today nowMinutes
          [timp, tunimp]).foldl (eisDayStep settings [] [timp, tunimp])
          ([], List.map (fun t => (t.id, (0 : ℚ))) [timp, tunimp])).2
          timp.id = timp.estimatedHours := by
      by_cases h : 0 < lookupS ((computeAvailableDays settings today
          nowMinutes [timp, tunimp]).foldl
          (eisDayStep settings [] [timp, tunimp])
          ([], List.map (fun t => (t.id, (0 : ℚ))) [timp, tunimp])).2 tunimp.id
      · exact Or.inr (f5 h)
      · exact Or.inl (le_antisymm (not_lt.mp h) (f2 tunimp.id))
    have hcond_u : suggestionThreshold settings
        < max 0 (tunimp.estimatedHours
          - lookupS ((computeAvailableDays settings today nowMinutes
            [timp, tunimp]).foldl (eisDayStep settings [] [timp, tunimp])
            ([], List.map (fun t => (t.id, (0 : ℚ))) [timp, tunimp])).2
            tunimp.id) := by
      refine lt_of_lt_of_le ?_ (le_max_right _ _)
      rcases hcase with h | h
      · rw [h]
        linarith
      · have h2 := f3
        linarith
    unfold getUnscheduledMinutesForTasks
    rw [show ([timp, tunimp].filter fun t => t.status == TStatus.pending)
      = [timp, tunimp] from by simp [hpi, hpu]]
    simp only [List.foldr]
    rw [if_pos hcond_u]
    by_cases hci : suggestionThreshold settings
        < max 0 (timp.estimatedHours
          - lookupS ((computeAvailableDays settings today nowMinutes
            [timp, tunimp]).foldl (eisDayStep settings [] [timp, tunimp])
            ([], List.map (fun t => (t.id, (0 : ℚ))) [timp, tunimp])).2
            timp.id)
    · rw [if_pos hci]
      exact ⟨_, List.mem_cons_of_mem _ (List.mem_cons_self _ _), rfl⟩
    · rw [if_neg hci]
      exact ⟨_, List.mem_cons_self _ _, rfl⟩

/-- C8 witness: the amended theorem applied to the concrete eisenhower run
with a 2-hour daily capacity inside the 6-23 window, a 10-hour important
task and a 1-hour unimportant task both due the next day. -/
theorem c8_witness :
    (0 < scheduledHoursFor (generateNewStudyPlan c8wSettings 700 600
        [c8TaskImp, c8TaskUnimp] [] []).1 c8TaskUnimp.id →
      scheduledHoursFor (generateNewStudyPlan c8wSettings 700 600
        [c8TaskImp, c8TaskUnimp] [] []).1 c8TaskImp.id
        = c8TaskImp.estimatedHours) ∧
    (∃ sug ∈ (generateNewStudyPlan c8wSettings 700 600
        [c8TaskImp, c8TaskUnimp] [] []).2,
      sug.taskTitle = c8TaskUnimp.title) :=
  c8_priority_starvation c8wSettings 700 600 [c8TaskImp, c8TaskUnimp]
    c8TaskImp c8TaskUnimp []
    rfl (Or.inl rfl) rfl rfl (by decide) (by decide) rfl rfl rfl (by decide)
    ⟨600, by show (10 : ℚ) = ((600 : ℤ) : ℚ) / 60; norm_num⟩
    ⟨60, by show (1 : ℚ) = ((60 : ℤ) : ℚ) / 60; norm_num⟩
    ⟨120, by show (2 : ℚ) = ((120 : ℤ) : ℚ) / 60; norm_num⟩
    (by decide) (by decide) (by decide) (by decide)

/-- C1.  On the validation-rollback path, redistribution does NOT return the
input plan set: the source copies the plans array shallowly, mutates the
shared plan objects in place, and on rollback returns the input array whose
objects it has mutated.  Concrete run (today = day 100, 10:00): day 99 holds
a missed session, day 100 holds two overlapping sessions so validation
necessarily fails afterwards.  The result reports no session moved and every
candidate failed (as claimed), and the returned plan set still fails the
validator, but it differs from the input: the missed session was removed
from day 99 and its moved copy sits in day 100. -/
theorem c1_rollback_returns_mutated_plans :
    (redistributeMissedSessionsWithFeedback 100 600 c1Plans c1Settings []
        c1Tasks).movedSessions = [] ∧
    (redistributeMissedSessionsWithFeedback 100 600 c1Plans c1Settings []
        c1Tasks).failedSessions = [c1Missed] ∧
    validateStudyPlanConflicts 100 600
      (redistributeMissedSessionsWithFeedback 100 600 c1Plans c1Settings []
        c1Tasks).updatedPlans c1Settings = true ∧
    ¬ (redistributeMissedSessionsWithFeedback 100 600 c1Plans c1Settings []
        c1Tasks).updatedPlans = c1Plans := by
  decide

/-- C6 counterexample.  The gate refuses although none of the three claimed
conditions holds: one missed session (1 hour against 64 available over 8
work days), but a pending task with a deadline within one day of now
triggers the urgent-task issue, which also blocks redistribution. -/
theorem c6_counterexample :
    (handleRedistributionEdgeCases 100 600 c6Plans c1Settings []
        c6Tasks).1 = false ∧
    ¬ missedCount 100 600 c6Plans = 0 ∧
    ¬ totalMissedHours 100 600 c6Plans > (availScan c1Settings [] 100).1 ∧
    ¬ (availScan c1Settings [] 100).2 = 0 := by
  decide

/-- C6 amended.  The gate refuses exactly when one of FOUR conditions holds:
no missed session, missed hours above the scanned 8-day availability, no
work day with positive availability in the scan, or at least one pending
task with a deadline within one day of now (the urgent-task condition the
claim omits).  Past-deadline tasks indeed never cause a refusal (they are in
no disjunct).  On refusal the wrapper returns the input plans untouched with
nothing moved or failed and success = false. -/
theorem c6_gate_semantics (today : Int) (nowMinutes : ℚ)
    (plans : List StudyPlan) (settings : UserSettings)
    (commitments : List FixedCommitment) (tasks : List Task) :
    ((handleRedistributionEdgeCases today nowMinutes plans settings
        commitments tasks).1 = false ↔
      (missedCount today nowMinutes plans = 0 ∨
        totalMissedHours today nowMinutes plans
          > (availScan settings commitments today).1 ∨
        (availScan settings commitments today).2 = 0 ∨
        urgentTasks today nowMinutes tasks ≠ [])) ∧
    ((handleRedistributionEdgeCases today nowMinutes plans settings
        commitments tasks).1 = false →
      (redistributeMissedSessionsWithFeedback today nowMinutes plans settings
          commitments tasks).updatedPlans = plans ∧
      (redistributeMissedSessionsWithFeedback today nowMinutes plans settings
          commitments tasks).movedSessions = [] ∧
      (redistributeMissedSessionsWithFeedback today nowMinutes plans settings
          commitments tasks).failedSessions = [] ∧
      (redistributeMissedSessionsWithFeedback today nowMinutes plans settings
          commitments tasks).success = false) := by
  constructor
  · by_cases h0 : missedCount today nowMinutes plans = 0
    · simp [handleRedistributionEdgeCases, h0]
    · by_cases hA : totalMissedHours today nowMinutes plans
          > (availScan settings commitments today).1
      · simp [handleRedistributionEdgeCases, h0, hA]
        split <;> split <;> simp
      · by_cases hB : (availScan settings commitments today).2 = 0
        · simp [handleRedistributionEdgeCases, h0, hA, hB]
          split <;> simp
        · by_cases hC : 0 < (urgentTasks today nowMinutes tasks).length
          · have hC2 : urgentTasks today nowMinutes tasks ≠ [] :=
              List.length_pos.mp hC
            simp [handleRedistributionEdgeCases, h0, hA, hB, hC, hC2]
          · have hC2 : urgentTasks today nowMinutes tasks = [] := by
              have := not_lt.mp hC
              simpa using this
            simp [handleRedistributionEdgeCases, h0, hA, hB, hC, hC2]
  · intro h
    simp [redistributeMissedSessionsWithFeedback, h]

/-- C6 witness: the amended theorem's refusal branch at the concrete urgent
run (the gate refuses there, by computation, so the wrapper leaves the plans
untouched). -/
theorem c6_witness :
    (redistributeMissedSessionsWithFeedback 100 600 c6Plans c1Settings []
        c6Tasks).updatedPlans = c6Plans ∧
    (redistributeMissedSessionsWithFeedback 100 600 c6Plans c1Settings []
        c6Tasks).movedSessions = [] ∧
    (redistributeMissedSessionsWithFeedback 100 600 c6Plans c1Settings []
        c6Tasks).failedSessions = [] ∧
    (redistributeMissedSessionsWithFeedback 100 600 c6Plans c1Settings []
        c6Tasks).success = false :=
  (c6_gate_semantics 100 600 c6Plans c1Settings [] c6Tasks).2 (by decide)

end TimePilot
